import Mathlib

/-!
Verification of the solt-pre-commit diagnostic engine against its
specification.  The definitions below are shallow embeddings of the Python
source in `src/solt_pre_commit/`:

* `checks_odoo_module_python.py` — the AST fact extractor
  (`OdooFieldVisitor._extract_field_info`), the transitive mail-thread
  resolver (`ChecksOdooModulePython._resolve_mail_thread_inheritance`,
  `_model_has_mail_thread`) and the Python rule methods
  (`check_duplicate_field_labels`, `check_public_method_missing_docstring`,
  `check_docstring_quality`).
* `checks_odoo_module_po.py` — printf/format placeholder extraction and the
  dummy-substitution compatibility check (`parse_printf`, `parse_format`,
  `_visit_entry`).
* `checks_odoo_module.py` — the severity system (`SeverityConfig`,
  `CheckResult`) and changed-file scope detection (`ChangedFilesDetector`,
  `ChecksOdooModule._get_files_to_validate`).

Mutable dictionaries are modelled as association lists, dict/set membership
as list membership, and the iteration order of `self.all_models.items()` as
an explicit list `ord` of indices into the fixed list of models.
-/

set_option maxRecDepth 10000

namespace SoltPreCommit

/-! ## Data model of `OdooFieldVisitor` model facts

A parsed class body contributes a model fact with its `_name`, its
`_inherit` list and the parse-time `has_mail_thread` flag
(`_check_mail_thread`).  Only the fields read by
`_resolve_mail_thread_inheritance` are carried here; the parse-time flag is
recomputed from `inherit` exactly as `visit_ClassDef` does. -/

structure PyModel where
  name : Option String
  inherit : List String
deriving DecidableEq, Repr

/-- The five mixin names of `OdooFieldVisitor._check_mail_thread`. -/
def mailMixins : List String :=
  ["mail.thread", "mail.activity.mixin", "mail.thread.main.attachment",
   "mail.thread.cc", "mail.thread.blacklist"]

/-- `_check_mail_thread`: `bool(set(inherit_list) & mail_mixins)`. -/
def checkMailThread (inh : List String) : Bool :=
  inh.any (fun p => mailMixins.contains p)

/-- `ChecksOdooModulePython.KNOWN_MAIL_THREAD_MODELS`, verbatim. -/
def KNOWN_MAIL_THREAD_MODELS : List String :=
  ["mail.thread", "mail.activity.mixin", "mail.thread.main.attachment",
   "mail.thread.cc", "mail.thread.blacklist",
   "account.move", "account.move.line", "account.payment",
   "account.bank.statement", "account.bank.statement.line",
   "account.reconcile.model",
   "crm.lead", "crm.team",
   "hr.employee", "hr.department", "hr.applicant", "hr.expense",
   "hr.expense.sheet", "hr.leave", "hr.leave.allocation", "hr.payslip",
   "hr.payslip.run", "hr.contract",
   "maintenance.request", "maintenance.equipment",
   "mrp.production", "mrp.workorder", "mrp.bom",
   "project.project", "project.task",
   "purchase.order", "purchase.requisition",
   "sale.order", "sale.subscription",
   "stock.picking", "stock.move", "stock.scrap", "stock.inventory",
   "stock.warehouse.orderpoint",
   "helpdesk.ticket",
   "fleet.vehicle", "fleet.vehicle.log.services", "fleet.vehicle.log.contract",
   "event.event", "event.registration",
   "survey.survey", "survey.user_input",
   "slide.channel", "slide.slide",
   "repair.order",
   "quality.alert", "quality.check",
   "lunch.supplier", "lunch.order",
   "calendar.event", "note.note",
   "product.template", "product.product",
   "res.partner", "res.users"]

/-- The model list is indexed by position; out-of-range access yields an
inert model (`getD` default), which no step of the algorithm can mark. -/
def mdl (models : List PyModel) (i : Nat) : PyModel :=
  models.getD i ⟨none, []⟩

/-- Resolver state: the per-model `has_mail_thread` flags (indexed like
`models`) and the `_model_mail_thread_cache` as the list of names mapped to
`True` (the cache never stores `False`). -/
structure RState where
  flags : List Bool
  cache : List String
deriving DecidableEq, Repr

def flagAt (s : RState) (i : Nat) : Bool := s.flags.getD i false

def inCache (s : RState) (n : String) : Bool := s.cache.contains n

/-- Parse-time flags: `visit_ClassDef` sets `has_mail_thread` from
`_check_mail_thread(_inherit)`. -/
def initFlags (models : List PyModel) : List Bool :=
  models.map (fun m => checkMailThread m.inherit)

/-- Steps 2 and 3 of `_resolve_mail_thread_inheritance`: seed the cache with
`KNOWN_MAIL_THREAD_MODELS`, then add the `_name` of every model whose
parse-time flag is set.  (Step 1 builds `model_by_name`, which the rest of
the function never reads.) -/
def initCache (models : List PyModel) : List String :=
  KNOWN_MAIL_THREAD_MODELS ++
    models.filterMap (fun m => if checkMailThread m.inherit then m.name else none)

def initState (models : List PyModel) : RState :=
  ⟨initFlags models, initCache models⟩

/-- The mark branch of step 4: set `has_mail_thread` on model `i` and, when
it has a `_name`, record that name in the cache. -/
def markState (models : List PyModel) (s : RState) (i : Nat) : RState :=
  ⟨s.flags.set i true,
   match (mdl models i).name with
   | some n => n :: s.cache
   | none => s.cache⟩

/-- The `continue` guard of step 4: skip a model whose `_name` is already
cached. -/
def skipModel (models : List PyModel) (s : RState) (i : Nat) : Bool :=
  match (mdl models i).name with
  | some n => inCache s n
  | none => false

/-- One body of the `for model_key, model_info in self.all_models.items()`
loop inside step 4, for model index `i`, threading the `changed` flag. -/
def stepModel (models : List PyModel) (acc : RState × Bool) (i : Nat) :
    RState × Bool :=
  if skipModel models acc.1 i then acc
  else if (mdl models i).inherit.any (fun p => inCache acc.1 p) then
    (markState models acc.1 i, true)
  else acc

/-- One full pass of step 4 over the models in iteration order `ord`,
returning the new state and the `changed` flag. -/
def onePass (models : List PyModel) (ord : List Nat) (s : RState) :
    RState × Bool :=
  ord.foldl (stepModel models) (s, false)

/-- The `for iteration in range(max_iterations)` loop with
`max_iterations = 10`: run a pass; stop early when it reports no change. -/
def resolveLoop (models : List PyModel) (ord : List Nat) :
    Nat → RState → RState
  | 0, s => s
  | fuel + 1, s =>
    let r := onePass models ord s
    if r.2 then resolveLoop models ord fuel r.1 else r.1

/-- `_resolve_mail_thread_inheritance` from the freshly parsed state. -/
def resolveMailThread (models : List PyModel) (ord : List Nat) : RState :=
  resolveLoop models ord 10 (initState models)

/-- `_model_has_mail_thread`: direct flag, cache by `_name`, or any
inherited name in the cache. -/
def modelHasMailThread (models : List PyModel) (s : RState) (i : Nat) : Bool :=
  let m := mdl models i
  flagAt s i ||
    (match m.name with
     | some n => inCache s n
     | none => false) ||
    m.inherit.any (fun p => inCache s p)

/-! ## Monotonicity infrastructure -/

/-- `s ⊑ t`: every mark (flag or cache entry) of `s` is present in `t`. -/
def StateLE (s t : RState) : Prop :=
  (∀ i, flagAt s i = true → flagAt t i = true) ∧
  (∀ n, inCache s n = true → inCache t n = true)

theorem StateLE.refl (s : RState) : StateLE s s :=
  ⟨fun _ h => h, fun _ h => h⟩

theorem StateLE.trans {s t u : RState} (h₁ : StateLE s t) (h₂ : StateLE t u) :
    StateLE s u :=
  ⟨fun i h => h₂.1 i (h₁.1 i h), fun n h => h₂.2 n (h₁.2 n h)⟩

theorem getD_set_true_of (l : List Bool) (i j : Nat)
    (h : l.getD j false = true) : (l.set i true).getD j false = true := by
  induction l generalizing i j with
  | nil => exact h
  | cons a t ih =>
    cases i with
    | zero =>
      cases j with
      | zero => simp [List.set]
      | succ j => simpa [List.set, List.getD] using h
    | succ i =>
      cases j with
      | zero => simpa [List.set, List.getD] using h
      | succ j =>
        simp only [List.set, List.getD_cons_succ] at h ⊢
        exact ih i j h

theorem flagAt_markState_of (models : List PyModel) (s : RState)
    (i j : Nat) (h : flagAt s j = true) :
    flagAt (markState models s i) j = true :=
  getD_set_true_of s.flags i j h

theorem inCache_markState_of (models : List PyModel) (s : RState)
    (i : Nat) (nm : String) (h : inCache s nm = true) :
    inCache (markState models s i) nm = true := by
  unfold markState inCache at *
  cases hn : (mdl models i).name with
  | none => simpa using h
  | some n =>
    have hmem : nm ∈ s.cache := by simpa using h
    simp [List.contains_cons, hmem]

theorem markState_le (models : List PyModel) (s : RState) (i : Nat) :
    StateLE s (markState models s i) :=
  ⟨fun j h => flagAt_markState_of models s i j h,
   fun nm h => inCache_markState_of models s i nm h⟩

/-- Each loop-body execution either leaves the accumulator unchanged or
marks model `i`, and it marks only when `i`'s parents hit the cache while
`i` itself is not skipped. -/
theorem stepModel_spec (models : List PyModel) (acc : RState × Bool)
    (i : Nat) :
    stepModel models acc i = acc ∨
      (stepModel models acc i = (markState models acc.1 i, true) ∧
        ((mdl models i).inherit.any fun p => inCache acc.1 p) = true ∧
        skipModel models acc.1 i = false) := by
  unfold stepModel
  cases hskip : skipModel models acc.1 i with
  | true => simp
  | false =>
    cases hpar : (mdl models i).inherit.any (fun p => inCache acc.1 p) with
    | false => simp [hpar]
    | true => simp [hpar]

theorem stepModel_le (models : List PyModel) (acc : RState × Bool) (i : Nat) :
    StateLE acc.1 (stepModel models acc i).1 := by
  rcases stepModel_spec models acc i with h | ⟨h, _, _⟩
  · rw [h]; exact StateLE.refl _
  · rw [h]; exact markState_le models acc.1 i

theorem foldl_stepModel_le (models : List PyModel) (l : List Nat)
    (acc : RState × Bool) :
    StateLE acc.1 (l.foldl (stepModel models) acc).1 := by
  induction l generalizing acc with
  | nil => exact StateLE.refl _
  | cons a t ih =>
    exact StateLE.trans (stepModel_le models acc a) (ih (stepModel models acc a))

theorem onePass_le (models : List PyModel) (ord : List Nat) (s : RState) :
    StateLE s (onePass models ord s).1 :=
  foldl_stepModel_le models ord (s, false)

theorem resolveLoop_le (models : List PyModel) (ord : List Nat) (fuel : Nat)
    (s : RState) : StateLE s (resolveLoop models ord fuel s) := by
  induction fuel generalizing s with
  | zero => exact StateLE.refl _
  | succ fuel ih =>
    unfold resolveLoop
    cases hch : (onePass models ord s).2 with
    | true =>
      simp only [hch, if_true]
      exact StateLE.trans (onePass_le models ord s) (ih _)
    | false =>
      simp only [hch, Bool.false_eq_true, if_false]
      exact onePass_le models ord s

/-! ## C3: marking is monotonic -/

/-- C3.  Capability marking is monotonic: starting from any intermediate
resolver state, no later step, pass, or iteration of
`_resolve_mail_thread_inheritance` ever clears a `has_mail_thread` flag or
removes a name from `_model_mail_thread_cache`.  In particular the full
ten-iteration loop preserves every mark already set. -/
theorem mail_thread_marking_monotonic (models : List PyModel)
    (ord : List Nat) (fuel : Nat) (acc : RState × Bool) (j : Nat)
    (s : RState) (i : Nat) (n : String) :
    (flagAt acc.1 i = true → flagAt (stepModel models acc j).1 i = true) ∧
    (inCache acc.1 n = true → inCache (stepModel models acc j).1 n = true) ∧
    (flagAt s i = true → flagAt (resolveLoop models ord fuel s) i = true) ∧
    (inCache s n = true → inCache (resolveLoop models ord fuel s) n = true) :=
  ⟨(stepModel_le models acc j).1 i, (stepModel_le models acc j).2 n,
   (resolveLoop_le models ord fuel s).1 i,
   (resolveLoop_le models ord fuel s).2 n⟩

/-- A two-model chain used to instantiate the resolver theorems. -/
def exChain2 : List PyModel :=
  [⟨some "x.a", ["mail.thread"]⟩, ⟨some "x.b", ["x.a"]⟩]

/-- Witness for C3 at a concrete state of the two-model chain. -/
theorem mail_thread_marking_monotonic_witness :
    flagAt (resolveLoop exChain2 [0, 1] 10 ⟨[true, false], ["x.a"]⟩) 0 = true ∧
    inCache (resolveLoop exChain2 [0, 1] 10 ⟨[true, false], ["x.a"]⟩) "x.a"
      = true :=
  ⟨(mail_thread_marking_monotonic exChain2 [0, 1] 10
      ((⟨[true, false], ["x.a"]⟩ : RState), false) 0
      ⟨[true, false], ["x.a"]⟩ 0 "x.a").2.2.1 (by decide),
   (mail_thread_marking_monotonic exChain2 [0, 1] 10
      ((⟨[true, false], ["x.a"]⟩ : RState), false) 0
      ⟨[true, false], ["x.a"]⟩ 0 "x.a").2.2.2 (by decide)⟩

/-! ## C1 and C2: the fixed iteration bound is observable

A linear chain `c.m1 → c.m2 → … → c.m13` (each model inheriting the
previous one, `c.m1` inheriting `mail.thread` directly) needs one
propagation step per link.  When the models are iterated in reverse
declaration order, each of the ten passes marks exactly one further model,
so models 12 and 13 stay unmarked; in forward order a single pass marks the
whole chain. -/

def chain13 : List PyModel :=
  [⟨some "c.m1", ["mail.thread"]⟩,
   ⟨some "c.m2", ["c.m1"]⟩,
   ⟨some "c.m3", ["c.m2"]⟩,
   ⟨some "c.m4", ["c.m3"]⟩,
   ⟨some "c.m5", ["c.m4"]⟩,
   ⟨some "c.m6", ["c.m5"]⟩,
   ⟨some "c.m7", ["c.m6"]⟩,
   ⟨some "c.m8", ["c.m7"]⟩,
   ⟨some "c.m9", ["c.m8"]⟩,
   ⟨some "c.m10", ["c.m9"]⟩,
   ⟨some "c.m11", ["c.m10"]⟩,
   ⟨some "c.m12", ["c.m11"]⟩,
   ⟨some "c.m13", ["c.m12"]⟩]

def ordFwd13 : List Nat := [0, 1, 2, 3, 4, 5, 6, 7, 8, 9, 10, 11, 12]

def ordBwd13 : List Nat := [12, 11, 10, 9, 8, 7, 6, 5, 4, 3, 2, 1, 0]

/-- C1 counterexample.  `ordBwd13` is a permutation of `ordFwd13`, yet the
resolved mark set differs: in forward order model 11 (`c.m12`) ends up
flagged and cached, in reverse order it does not.  Membership in the
resolved mark set is therefore not invariant under reordering. -/
theorem resolve_not_permutation_invariant :
    ordBwd13.Perm ordFwd13 ∧
    flagAt (resolveMailThread chain13 ordFwd13) 11 = true ∧
    flagAt (resolveMailThread chain13 ordBwd13) 11 = false ∧
    inCache (resolveMailThread chain13 ordFwd13) "c.m12" = true ∧
    inCache (resolveMailThread chain13 ordBwd13) "c.m12" = false := by
  decide

/-! ## Transitive inheritance, independently of the algorithm

`reachB models k i` holds when model `i` transitively inherits a
mail-thread capability through a chain of at most `k` in-module links:
level 0 is a direct `_inherit` of a known capability holder, and each
further level allows one hop through an in-module model (matched by its
`_name`, as the cache does). -/

def reachFlags (models : List PyModel) : Nat → List Bool
  | 0 =>
    models.map (fun m =>
      m.inherit.any (fun p => KNOWN_MAIL_THREAD_MODELS.contains p))
  | k + 1 =>
    let prev := reachFlags models k
    (List.range models.length).map (fun i =>
      prev.getD i false ||
        (mdl models i).inherit.any (fun p =>
          (List.range models.length).any (fun j =>
            ((mdl models j).name == some p) && prev.getD j false)))

def reachB (models : List PyModel) (k i : Nat) : Bool :=
  (reachFlags models k).getD i false

/-- C2 counterexample.  In `chain13`, model 12 (`c.m13`) transitively
inherits the capability (through a 13-link chain), but after running the
resolver in reverse declaration order it is not marked: its flag is unset,
its name is not cached, and even the `_model_has_mail_thread` fallback
reports `False`. -/
theorem resolve_misses_deep_chain :
    reachB chain13 12 12 = true ∧
    flagAt (resolveMailThread chain13 ordBwd13) 12 = false ∧
    modelHasMailThread chain13 (resolveMailThread chain13 ordBwd13) 12
      = false := by
  decide

/-! ## The synchronous (order-free) propagation iteration

To settle what the bounded loop computes for *every* iteration order, we
compare it with a synchronous iteration `sFlags`: one step marks every
model that would be marked by some pass given the current marks only.
Real passes are sandwiched between synchronous steps: after `k` passes at
least `sFlags k` is marked, and (when `sFlags` is already at a fixed point
by step 10) at most the fixed point is ever marked. -/

/-- A model whose own `_name` is a known capability holder finds it in the
cache from initialization onwards, so the `continue` branch always skips
it and its flag can never be set by the loop. -/
def blocked (m : PyModel) : Bool :=
  match m.name with
  | some n => KNOWN_MAIL_THREAD_MODELS.contains n
  | none => false

/-- The cache a flag assignment denotes: the known allow-list plus the
`_name` of every flagged model. -/
def sCacheOf (models : List PyModel) (fl : List Bool) : List String :=
  KNOWN_MAIL_THREAD_MODELS ++
    (List.range models.length).filterMap (fun i =>
      if fl.getD i false then (mdl models i).name else none)

/-- One synchronous propagation step. -/
def sStep (models : List PyModel) (fl : List Bool) : List Bool :=
  (List.range models.length).map (fun i =>
    fl.getD i false ||
      (!(blocked (mdl models i)) &&
        (mdl models i).inherit.any (fun p =>
          (sCacheOf models fl).contains p)))

/-- The synchronous iteration starting from the parse-time flags. -/
def sFlags (models : List PyModel) : Nat → List Bool
  | 0 => initFlags models
  | k + 1 => sStep models (sFlags models k)

theorem length_sStep (models : List PyModel) (fl : List Bool) :
    (sStep models fl).length = models.length := by
  simp [sStep]

theorem length_sFlags (models : List PyModel) (k : Nat) :
    (sFlags models k).length = models.length := by
  cases k with
  | zero => simp [sFlags, initFlags]
  | succ k => simp [sFlags, length_sStep]

theorem mdl_lt (models : List PyModel) (i : Nat) (h : i < models.length) :
    mdl models i = models[i] :=
  List.getD_eq_getElem models _ h

theorem mdl_of_le (models : List PyModel) (i : Nat)
    (h : models.length ≤ i) : mdl models i = ⟨none, []⟩ :=
  List.getD_eq_default models _ h

theorem getD_map_range (f : Nat → Bool) (n i : Nat) (h : i < n) :
    ((List.range n).map f).getD i false = f i := by
  rw [List.getD_eq_getElem _ _ (by simpa using h)]
  simp

theorem getD_sStep (models : List PyModel) (fl : List Bool) (i : Nat)
    (h : i < models.length) :
    (sStep models fl).getD i false =
      (fl.getD i false ||
        (!(blocked (mdl models i)) &&
          (mdl models i).inherit.any (fun p =>
            (sCacheOf models fl).contains p))) := by
  unfold sStep
  exact getD_map_range _ _ _ h

theorem getD_initFlags (models : List PyModel) (i : Nat)
    (h : i < models.length) :
    (initFlags models).getD i false = checkMailThread (mdl models i).inherit := by
  unfold initFlags
  rw [List.getD_eq_getElem _ _ (by simpa using h)]
  simp [mdl_lt models i h]

theorem sFlags_getD_of_le (models : List PyModel) (k i : Nat)
    (h : models.length ≤ i) : (sFlags models k).getD i false = false :=
  List.getD_eq_default _ _ (by rw [length_sFlags]; exact h)

theorem sFlags_mono_succ (models : List PyModel) (k i : Nat)
    (h : (sFlags models k).getD i false = true) :
    (sFlags models (k + 1)).getD i false = true := by
  rcases Nat.lt_or_ge i models.length with hi | hi
  · show (sStep models (sFlags models k)).getD i false = true
    rw [getD_sStep models _ i hi, h, Bool.true_or]
  · rw [sFlags_getD_of_le models k i hi] at h
    exact absurd h (by simp)

theorem sFlags_mono (models : List PyModel) (k k' i : Nat) (hk : k ≤ k')
    (h : (sFlags models k).getD i false = true) :
    (sFlags models k').getD i false = true := by
  induction k' with
  | zero => rwa [Nat.le_zero.mp hk] at h
  | succ k'' ih =>
    rcases eq_or_lt_of_le hk with h' | h'
    · rwa [h'] at h
    · exact sFlags_mono_succ models k'' i (ih (Nat.lt_succ_iff.mp h'))

theorem sCacheOf_contains (models : List PyModel) (fl : List Bool)
    (nm : String) :
    (sCacheOf models fl).contains nm = true ↔
      (KNOWN_MAIL_THREAD_MODELS.contains nm = true ∨
        ∃ i, i < models.length ∧ fl.getD i false = true ∧
          (mdl models i).name = some nm) := by
  have hmem : (sCacheOf models fl).contains nm = true ↔ nm ∈ sCacheOf models fl := by
    simp
  rw [hmem]
  unfold sCacheOf
  simp only [List.mem_append, List.mem_filterMap, List.mem_range,
    Option.ite_none_right_eq_some, List.getD_eq_getElem?_getD]
  constructor
  · rintro (hk | ⟨i, hi, hf, hn⟩)
    · left; simpa using hk
    · right; exact ⟨i, hi, hf, hn⟩
  · rintro (hk | ⟨i, hi, hf, hn⟩)
    · left; simpa using hk
    · right; exact ⟨i, hi, hf, hn⟩

/-! ## Structural invariants of resolver states -/

theorem getD_set_ne (l : List Bool) (b : Bool) (i j : Nat) (h : i ≠ j) :
    (l.set j b).getD i false = l.getD i false := by
  induction l generalizing i j with
  | nil => simp
  | cons a t ih =>
    cases j with
    | zero =>
      cases i with
      | zero => exact absurd rfl h
      | succ i => simp [List.set]
    | succ j =>
      cases i with
      | zero => simp [List.set]
      | succ i =>
        simp only [List.set, List.getD_cons_succ]
        exact ih i j (fun he => h (by rw [he]))

theorem getD_set_self (l : List Bool) (j : Nat) (h : j < l.length) :
    (l.set j true).getD j false = true := by
  induction l generalizing j with
  | nil => simp at h
  | cons a t ih =>
    cases j with
    | zero => simp [List.set]
    | succ j =>
      simp only [List.set, List.getD_cons_succ]
      exact ih j (by simpa using h)

/-- Invariants every state reachable by the resolver satisfies: the flag
list has one entry per model; the known allow-list is cached; a flagged
model's `_name` is cached (the mark branch writes both together); and every
cache entry is either known or the `_name` of some flagged model. -/
structure GoodS (models : List PyModel) (s : RState) : Prop where
  wf : s.flags.length = models.length
  known_sub : ∀ nm, KNOWN_MAIL_THREAD_MODELS.contains nm = true →
    inCache s nm = true
  nf : ∀ i nm, flagAt s i = true → (mdl models i).name = some nm →
    inCache s nm = true
  cn : ∀ nm, inCache s nm = true →
    KNOWN_MAIL_THREAD_MODELS.contains nm = true ∨
      ∃ i, i < models.length ∧ (mdl models i).name = some nm ∧
        flagAt s i = true

theorem mark_lt (models : List PyModel) (s : RState) (i : Nat)
    (hpar : ((mdl models i).inherit.any fun p => inCache s p) = true) :
    i < models.length := by
  by_contra hge
  rw [mdl_of_le models i (Nat.le_of_not_lt hge)] at hpar
  simp at hpar

theorem flagAt_markState_self (models : List PyModel) (s : RState) (i : Nat)
    (h : i < s.flags.length) : flagAt (markState models s i) i = true :=
  getD_set_self s.flags i h

theorem flagAt_markState_ne (models : List PyModel) (s : RState)
    (i j : Nat) (h : j ≠ i) : flagAt (markState models s i) j = flagAt s j :=
  getD_set_ne s.flags true j i h

theorem inCache_markState_name (models : List PyModel) (s : RState)
    (i : Nat) (n : String) (h : (mdl models i).name = some n) :
    inCache (markState models s i) n = true := by
  unfold markState inCache
  rw [h]
  simp [List.contains_cons]

theorem inCache_markState_elim (models : List PyModel) (s : RState)
    (i : Nat) (nm : String) (h : inCache (markState models s i) nm = true) :
    inCache s nm = true ∨ (mdl models i).name = some nm := by
  unfold markState inCache at h
  cases hn : (mdl models i).name with
  | none => rw [hn] at h; exact Or.inl h
  | some n =>
    rw [hn] at h
    simp only [List.contains_cons, Bool.or_eq_true, beq_iff_eq] at h
    rcases h with h | h
    · subst h
      exact Or.inr rfl
    · exact Or.inl (by simpa [inCache] using h)

theorem markState_flags_length (models : List PyModel) (s : RState)
    (i : Nat) : (markState models s i).flags.length = s.flags.length := by
  simp [markState]

theorem markState_good (models : List PyModel) (s : RState) (i : Nat)
    (hin : i < models.length) (h : GoodS models s) :
    GoodS models (markState models s i) := by
  refine ⟨?_, ?_, ?_, ?_⟩
  · rw [markState_flags_length, h.wf]
  · intro nm hk
    exact inCache_markState_of models s i nm (h.known_sub nm hk)
  · intro j nm hfl hname
    by_cases hij : j = i
    · subst hij
      exact inCache_markState_name models s j nm hname
    · rw [flagAt_markState_ne models s i j hij] at hfl
      exact inCache_markState_of models s i nm (h.nf j nm hfl hname)
  · intro nm hc
    rcases inCache_markState_elim models s i nm hc with hold | hnm
    · rcases h.cn nm hold with hk | ⟨j, hj, hn, hf⟩
      · exact Or.inl hk
      · exact Or.inr ⟨j, hj, hn, flagAt_markState_of models s i j hf⟩
    · exact Or.inr ⟨i, hin, hnm,
        flagAt_markState_self models s i (by rw [h.wf]; exact hin)⟩

theorem stepModel_good (models : List PyModel) (acc : RState × Bool)
    (i : Nat) (h : GoodS models acc.1) :
    GoodS models (stepModel models acc i).1 := by
  rcases stepModel_spec models acc i with heq | ⟨heq, hpar, _⟩
  · rw [heq]; exact h
  · rw [heq]
    exact markState_good models acc.1 i (mark_lt models acc.1 i hpar) h

theorem foldl_good (models : List PyModel) (l : List Nat)
    (acc : RState × Bool) (h : GoodS models acc.1) :
    GoodS models (l.foldl (stepModel models) acc).1 := by
  induction l generalizing acc with
  | nil => exact h
  | cons a t ih => exact ih _ (stepModel_good models acc a h)

theorem onePass_good (models : List PyModel) (ord : List Nat) (s : RState)
    (h : GoodS models s) : GoodS models (onePass models ord s).1 :=
  foldl_good models ord (s, false) h

theorem resolveLoop_good (models : List PyModel) (ord : List Nat)
    (fuel : Nat) (s : RState) (h : GoodS models s) :
    GoodS models (resolveLoop models ord fuel s) := by
  induction fuel generalizing s with
  | zero => exact h
  | succ fuel ih =>
    unfold resolveLoop
    cases hch : (onePass models ord s).2 with
    | true =>
      simp only [hch, if_true]
      exact ih _ (onePass_good models ord s h)
    | false =>
      simp only [hch, Bool.false_eq_true, if_false]
      exact onePass_good models ord s h

theorem initState_good (models : List PyModel) :
    GoodS models (initState models) := by
  refine ⟨by simp [initState, initFlags], ?_, ?_, ?_⟩
  · intro nm hk
    have : nm ∈ KNOWN_MAIL_THREAD_MODELS := by simpa using hk
    simp only [initState, inCache, initCache]
    simp [this]
  · intro j nm hfl hname
    have hj : j < models.length := by
      by_contra hge
      rw [show flagAt (initState models) j = false from
        List.getD_eq_default _ _ (by
          simpa [initState, initFlags] using Nat.le_of_not_lt hge)] at hfl
      exact absurd hfl (by simp)
    have hcheck : checkMailThread (mdl models j).inherit = true := by
      rw [← getD_initFlags models j hj]
      exact hfl
    simp only [initState, inCache, initCache]
    have : nm ∈ models.filterMap
        (fun m => if checkMailThread m.inherit then m.name else none) := by
      refine List.mem_filterMap.mpr ⟨models[j], List.getElem_mem hj, ?_⟩
      rw [← mdl_lt models j hj, hcheck]
      simpa using hname
    simp [this]
  · intro nm hc
    have : nm ∈ KNOWN_MAIL_THREAD_MODELS ∨
        nm ∈ models.filterMap
          (fun m => if checkMailThread m.inherit then m.name else none) := by
      simpa [initState, inCache, initCache] using hc
    rcases this with hk | hm
    · exact Or.inl (by simpa using hk)
    · right
      rcases List.mem_filterMap.mp hm with ⟨m, hmem, hval⟩
      rcases List.mem_iff_getElem.mp hmem with ⟨j, hj, hje⟩
      have hcheck : checkMailThread m.inherit = true := by
        by_cases hcm : checkMailThread m.inherit = true
        · exact hcm
        · simp [hcm] at hval
      refine ⟨j, hj, ?_, ?_⟩
      · rw [mdl_lt models j hj, hje]
        simpa [hcheck] using hval
      · show (initFlags models).getD j false = true
        rw [getD_initFlags models j hj, mdl_lt models j hj, hje]
        exact hcheck

/-! ## The `changed` flag and early exit -/

/-- Three-way split of a loop body: skip, no marked parent, or mark. -/
theorem stepModel_spec3 (models : List PyModel) (acc : RState × Bool)
    (i : Nat) :
    (skipModel models acc.1 i = true ∧ stepModel models acc i = acc) ∨
      (skipModel models acc.1 i = false ∧
        ((mdl models i).inherit.any fun p => inCache acc.1 p) = false ∧
        stepModel models acc i = acc) ∨
      (skipModel models acc.1 i = false ∧
        ((mdl models i).inherit.any fun p => inCache acc.1 p) = true ∧
        stepModel models acc i = (markState models acc.1 i, true)) := by
  unfold stepModel
  cases hskip : skipModel models acc.1 i with
  | true => exact Or.inl ⟨rfl, by simp⟩
  | false =>
    cases hpar : (mdl models i).inherit.any (fun p => inCache acc.1 p) with
    | false => exact Or.inr (Or.inl ⟨rfl, rfl, by simp [hpar]⟩)
    | true => exact Or.inr (Or.inr ⟨rfl, rfl, by simp [hpar]⟩)

theorem foldl_changed_true (models : List PyModel) (l : List Nat)
    (acc : RState × Bool) (h : acc.2 = true) :
    (l.foldl (stepModel models) acc).2 = true := by
  induction l generalizing acc with
  | nil => exact h
  | cons a t ih =>
    refine ih (stepModel models acc a) ?_
    rcases stepModel_spec3 models acc a with ⟨_, he⟩ | ⟨_, _, he⟩ | ⟨_, _, he⟩
    · rw [he]; exact h
    · rw [he]; exact h
    · rw [he]

/-- If a whole pass reports no change, it also left the state untouched,
and every loop body was a no-op on that state. -/
theorem foldl_noChange (models : List PyModel) (l : List Nat) (s : RState)
    (h : (l.foldl (stepModel models) (s, false)).2 = false) :
    l.foldl (stepModel models) (s, false) = (s, false) ∧
      ∀ j ∈ l, stepModel models (s, false) j = (s, false) := by
  induction l generalizing s with
  | nil => exact ⟨rfl, by simp⟩
  | cons a t ih =>
    rcases stepModel_spec3 models ((s, false) : RState × Bool) a with
      ⟨_, he⟩ | ⟨_, _, he⟩ | ⟨_, _, he⟩
    · rw [List.foldl_cons, he] at h ⊢
      rcases ih s h with ⟨h₁, h₂⟩
      refine ⟨h₁, ?_⟩
      intro j hj
      rcases List.mem_cons.mp hj with hj | hj
      · rw [hj]; exact he
      · exact h₂ j hj
    · rw [List.foldl_cons, he] at h ⊢
      rcases ih s h with ⟨h₁, h₂⟩
      refine ⟨h₁, ?_⟩
      intro j hj
      rcases List.mem_cons.mp hj with hj | hj
      · rw [hj]; exact he
      · exact h₂ j hj
    · rw [List.foldl_cons, he] at h
      have := foldl_changed_true models t (markState models s a, true) rfl
      rw [this] at h
      exact absurd h (by simp)

/-- At a no-change state, every model is either skipped or has no cached
parent. -/
theorem noChange_disj (models : List PyModel) (s : RState) (j : Nat)
    (h : stepModel models (s, false) j = (s, false)) :
    skipModel models s j = true ∨
      ((mdl models j).inherit.any fun p => inCache s p) = false := by
  rcases stepModel_spec3 models ((s, false) : RState × Bool) j with
    ⟨hs, _⟩ | ⟨_, hp, _⟩ | ⟨_, _, he⟩
  · exact Or.inl hs
  · exact Or.inr hp
  · rw [he] at h
    exact absurd (congrArg Prod.snd h) (by simp)

theorem blocked_eq_name (m : PyModel) (n : String) (hn : m.name = some n) :
    blocked m = KNOWN_MAIL_THREAD_MODELS.contains n := by
  unfold blocked
  rw [hn]

theorem blocked_eq_none (m : PyModel) (hn : m.name = none) :
    blocked m = false := by
  unfold blocked
  rw [hn]

theorem skipModel_eq_name (models : List PyModel) (s : RState) (i : Nat)
    (n : String) (hn : (mdl models i).name = some n) :
    skipModel models s i = inCache s n := by
  unfold skipModel
  rw [hn]

theorem skipModel_eq_none (models : List PyModel) (s : RState) (i : Nat)
    (hn : (mdl models i).name = none) : skipModel models s i = false := by
  unfold skipModel
  rw [hn]

theorem any_inCache_mono (l : List String) (s t : RState)
    (hle : StateLE s t) (h : (l.any fun p => inCache s p) = true) :
    (l.any fun p => inCache t p) = true := by
  rcases List.any_eq_true.mp h with ⟨p, hp, hc⟩
  exact List.any_eq_true.mpr ⟨p, hp, hle.2 p hc⟩

/-! ## Upper bound: no order ever marks beyond the synchronous fixed point -/

/-- `S` dominates state `s`: every flag of `s` is set in `S` and every
cache entry of `s` is in the cache `S` denotes. -/
def UBInv (models : List PyModel) (S : List Bool) (s : RState) : Prop :=
  (∀ i, flagAt s i = true → S.getD i false = true) ∧
  (∀ nm, inCache s nm = true → (sCacheOf models S).contains nm = true)

theorem flagAt_markState_cases (models : List PyModel) (s : RState)
    (i j : Nat) (h : flagAt (markState models s i) j = true) :
    j = i ∨ flagAt s j = true := by
  by_cases hij : j = i
  · exact Or.inl hij
  · rw [flagAt_markState_ne models s i j hij] at h
    exact Or.inr h

theorem stepModel_UB (models : List PyModel) (S : List Bool)
    (acc : RState × Bool) (i : Nat) (hfix : sStep models S = S)
    (hg : GoodS models acc.1) (h : UBInv models S acc.1) :
    UBInv models S (stepModel models acc i).1 := by
  rcases stepModel_spec3 models acc i with ⟨_, he⟩ | ⟨_, _, he⟩ | ⟨hsk, hpar, he⟩
  · rw [he]; exact h
  · rw [he]; exact h
  · rw [he]
    have hin : i < models.length := mark_lt models acc.1 i hpar
    have hbl : blocked (mdl models i) = false := by
      cases hb : blocked (mdl models i) with
      | false => rfl
      | true =>
        exfalso
        cases hn : (mdl models i).name with
        | none => rw [blocked_eq_none _ hn] at hb; exact absurd hb (by simp)
        | some n =>
          rw [blocked_eq_name _ n hn] at hb
          rw [skipModel_eq_name models acc.1 i n hn,
            hg.known_sub n hb] at hsk
          exact absurd hsk (by simp)
    have hparS : ((mdl models i).inherit.any fun p =>
        (sCacheOf models S).contains p) = true := by
      rcases List.any_eq_true.mp hpar with ⟨p, hp, hc⟩
      exact List.any_eq_true.mpr ⟨p, hp, h.2 p hc⟩
    have hSi : S.getD i false = true := by
      have hrw : (sStep models S).getD i false = S.getD i false := by rw [hfix]
      rw [getD_sStep models S i hin, hbl, hparS] at hrw
      simpa using hrw.symm
    constructor
    · intro j hfj
      rcases flagAt_markState_cases models acc.1 i j hfj with hj | hj
      · rw [hj]; exact hSi
      · exact h.1 j hj
    · intro nm hc
      rcases inCache_markState_elim models acc.1 i nm hc with hc | hc
      · exact h.2 nm hc
      · exact (sCacheOf_contains models S nm).mpr
          (Or.inr ⟨i, hin, hSi, hc⟩)

theorem foldl_UB (models : List PyModel) (S : List Bool) (l : List Nat)
    (acc : RState × Bool) (hfix : sStep models S = S)
    (hg : GoodS models acc.1) (h : UBInv models S acc.1) :
    UBInv models S (l.foldl (stepModel models) acc).1 := by
  induction l generalizing acc with
  | nil => exact h
  | cons a t ih =>
    exact ih (stepModel models acc a) (stepModel_good models acc a hg)
      (stepModel_UB models S acc a hfix hg h)

theorem resolveLoop_UB (models : List PyModel) (S : List Bool)
    (ord : List Nat) (fuel : Nat) (s : RState) (hfix : sStep models S = S)
    (hg : GoodS models s) (h : UBInv models S s) :
    UBInv models S (resolveLoop models ord fuel s) := by
  induction fuel generalizing s with
  | zero => exact h
  | succ fuel ih =>
    unfold resolveLoop
    cases hch : (onePass models ord s).2 with
    | true =>
      simp only [hch, if_true]
      exact ih _ (onePass_good models ord s hg)
        (foldl_UB models S ord (s, false) hfix hg h)
    | false =>
      simp only [hch, Bool.false_eq_true, if_false]
      exact foldl_UB models S ord (s, false) hfix hg h

/-! ## Lower bound: every order reaches at least the synchronous marks -/

/-- No two models declare the same `_name` (extension models, which have
none, are unconstrained).  Under this hypothesis a cached in-module name
identifies a unique model, so the `continue` guard can only skip models
that are already flagged or permanently blocked. -/
def DistinctNames (models : List PyModel) : Prop :=
  ∀ i, i < models.length → ∀ j, j < models.length → i ≠ j →
    (mdl models i).name = none ∨ (mdl models i).name ≠ (mdl models j).name

theorem DistinctNames.eq_of_name (models : List PyModel)
    (hd : DistinctNames models) (i j : Nat) (nm : String)
    (hi : i < models.length) (hj : j < models.length)
    (hni : (mdl models i).name = some nm)
    (hnj : (mdl models j).name = some nm) : i = j := by
  by_contra hij
  rcases hd i hi j hj hij with h | h
  · rw [hni] at h; exact absurd h (by simp)
  · rw [hni, hnj] at h; exact absurd rfl h

/-- With distinct names, a skipped unblocked model is already flagged. -/
theorem skip_flag (models : List PyModel) (s : RState) (i : Nat)
    (hd : DistinctNames models) (hin : i < models.length)
    (hbl : blocked (mdl models i) = false) (hg : GoodS models s)
    (hskip : skipModel models s i = true) : flagAt s i = true := by
  cases hn : (mdl models i).name with
  | none =>
    rw [skipModel_eq_none models s i hn] at hskip
    exact absurd hskip (by simp)
  | some nm =>
    rw [skipModel_eq_name models s i nm hn] at hskip
    rcases hg.cn nm hskip with hk | ⟨j, hj, hnj, hfj⟩
    · rw [blocked_eq_name _ nm hn, hk] at hbl
      exact absurd hbl (by simp)
    · rwa [DistinctNames.eq_of_name models hd i j nm hin hj hn hnj]

/-- If an unblocked model with a cached parent is among the indices still
to be processed, the fold flags it (or finds it already flagged). -/
theorem foldl_marks (models : List PyModel) (s₀ : RState) (j : Nat)
    (hd : DistinctNames models) (hj : j < models.length)
    (hbl : blocked (mdl models j) = false)
    (hpar : ((mdl models j).inherit.any fun p => inCache s₀ p) = true) :
    ∀ (l : List Nat) (acc : RState × Bool), j ∈ l → GoodS models acc.1 →
      StateLE s₀ acc.1 →
      flagAt (l.foldl (stepModel models) acc).1 j = true := by
  intro l
  induction l with
  | nil => intro acc hmem; exact absurd hmem (by simp)
  | cons a t ih =>
    intro acc hmem hg hle
    by_cases haj : a = j
    · subst haj
      rw [List.foldl_cons]
      rcases stepModel_spec3 models acc a with ⟨hs, he⟩ | ⟨_, hp, _⟩ | ⟨_, _, he⟩
      · have hfa : flagAt acc.1 a = true :=
          skip_flag models acc.1 a hd hj hbl hg hs
        exact (foldl_stepModel_le models t (stepModel models acc a)).1 a
          ((stepModel_le models acc a).1 a hfa)
      · exact absurd (any_inCache_mono _ s₀ acc.1 hle hpar)
          (by rw [hp]; simp)
      · rw [he]
        exact (foldl_stepModel_le models t (markState models acc.1 a, true)).1 a
          (flagAt_markState_self models acc.1 a (by rw [hg.wf]; exact hj))
    · have hjt : j ∈ t := by
        rcases List.mem_cons.mp hmem with h | h
        · exact absurd h.symm haj
        · exact h
      rw [List.foldl_cons]
      exact ih (stepModel models acc a) hjt (stepModel_good models acc a hg)
        (StateLE.trans hle (stepModel_le models acc a))

/-- `sFlags k` is a lower bound for the flags of `s`. -/
def Pflags (models : List PyModel) (k : Nat) (s : RState) : Prop :=
  ∀ i, (sFlags models k).getD i false = true → flagAt s i = true

theorem cacheLB (models : List PyModel) (k : Nat) (s : RState)
    (h : Pflags models k s) (hg : GoodS models s) (nm : String)
    (hc : (sCacheOf models (sFlags models k)).contains nm = true) :
    inCache s nm = true := by
  rcases (sCacheOf_contains models (sFlags models k) nm).mp hc with
    hk | ⟨i, hi, hf, hn⟩
  · exact hg.known_sub nm hk
  · exact hg.nf i nm (h i hf) hn

theorem onePass_LB (models : List PyModel) (ord : List Nat) (k : Nat)
    (s : RState) (hd : DistinctNames models)
    (hcov : ∀ i, i < models.length → i ∈ ord) (hg : GoodS models s)
    (h : Pflags models k s) :
    Pflags models (k + 1) (onePass models ord s).1 := by
  intro i hfi
  have hin : i < models.length := by
    by_contra hge
    rw [sFlags_getD_of_le models (k + 1) i (Nat.le_of_not_lt hge)] at hfi
    exact absurd hfi (by simp)
  have hstep : (sStep models (sFlags models k)).getD i false = true := hfi
  rw [getD_sStep models _ i hin] at hstep
  rcases (by simpa using hstep :
      (sFlags models k).getD i false = true ∨
        (blocked (mdl models i) = false ∧
          ((mdl models i).inherit.any fun p =>
            (sCacheOf models (sFlags models k)).contains p) = true)) with
    hprev | ⟨hbl', hparS⟩
  · exact (onePass_le models ord s).1 i (h i hprev)
  · have hpar : ((mdl models i).inherit.any fun p => inCache s p) = true := by
      rcases List.any_eq_true.mp hparS with ⟨p, hp, hc⟩
      exact List.any_eq_true.mpr ⟨p, hp, cacheLB models k s h hg p hc⟩
    exact foldl_marks models s i hd hin hbl' hpar ord (s, false)
      (hcov i hin) hg (StateLE.refl s)

/-- A no-change state is closed: it dominates every synchronous level. -/
theorem closed_Pflags (models : List PyModel) (ord : List Nat) (s : RState)
    (hd : DistinctNames models)
    (hcov : ∀ i, i < models.length → i ∈ ord) (hg : GoodS models s)
    (hch : (onePass models ord s).2 = false) (k : Nat)
    (hbase : Pflags models k s) : ∀ k', Pflags models k' s := by
  have hnoop : ∀ j ∈ ord, stepModel models (s, false) j = (s, false) :=
    (foldl_noChange models ord s hch).2
  intro k'
  induction k' with
  | zero =>
    intro i hfi
    exact hbase i (sFlags_mono models 0 k i (Nat.zero_le k) hfi)
  | succ k'' ih =>
    intro i hfi
    have hin : i < models.length := by
      by_contra hge
      rw [sFlags_getD_of_le models (k'' + 1) i (Nat.le_of_not_lt hge)] at hfi
      exact absurd hfi (by simp)
    have hstep : (sStep models (sFlags models k'')).getD i false = true := hfi
    rw [getD_sStep models _ i hin] at hstep
    rcases (by simpa using hstep :
        (sFlags models k'').getD i false = true ∨
          (blocked (mdl models i) = false ∧
            ((mdl models i).inherit.any fun p =>
              (sCacheOf models (sFlags models k'')).contains p) = true)) with
      hprev | ⟨hbl', hparS⟩
    · exact ih i hprev
    · have hpar : ((mdl models i).inherit.any fun p => inCache s p) = true := by
        rcases List.any_eq_true.mp hparS with ⟨p, hp, hc⟩
        exact List.any_eq_true.mpr ⟨p, hp, cacheLB models k'' s ih hg p hc⟩
      rcases noChange_disj models s i (hnoop i (hcov i hin)) with hs | hp
      · exact skip_flag models s i hd hin hbl' hg hs
      · rw [hpar] at hp
        exact absurd hp (by simp)

theorem resolveLoop_LB (models : List PyModel) (ord : List Nat)
    (hd : DistinctNames models)
    (hcov : ∀ i, i < models.length → i ∈ ord) :
    ∀ (fuel k : Nat) (s : RState), GoodS models s → Pflags models k s →
      Pflags models (k + fuel) (resolveLoop models ord fuel s) := by
  intro fuel
  induction fuel with
  | zero => intro k s _ h; simpa using h
  | succ fuel ih =>
    intro k s hg h
    unfold resolveLoop
    cases hch : (onePass models ord s).2 with
    | true =>
      simp only [hch, if_true]
      have := ih (k + 1) (onePass models ord s).1
        (onePass_good models ord s hg)
        (onePass_LB models ord k s hd hcov hg h)
      rw [show k + 1 + fuel = k + (fuel + 1) by omega] at this
      exact this
    | false =>
      simp only [hch, Bool.false_eq_true, if_false]
      have hstay : (onePass models ord s).1 = s := by
        have := (foldl_noChange models ord s hch).1
        exact congrArg Prod.fst this
      rw [hstay]
      exact closed_Pflags models ord s hd hcov hg hch k h (k + (fuel + 1))

/-! ## C1 (amended): permutation invariance within the iteration bound -/

theorem initState_Pflags0 (models : List PyModel) :
    Pflags models 0 (initState models) := fun _ h => h

theorem initState_UB (models : List PyModel) :
    UBInv models (sFlags models 10) (initState models) := by
  constructor
  · intro i hf
    exact sFlags_mono models 0 10 i (by omega) hf
  · intro nm hc
    rcases (initState_good models).cn nm hc with hk | ⟨i, hi, hn, hf⟩
    · exact (sCacheOf_contains models _ nm).mpr (Or.inl hk)
    · exact (sCacheOf_contains models _ nm).mpr
        (Or.inr ⟨i, hi, sFlags_mono models 0 10 i (by omega) hf, hn⟩)

/-- Whatever the iteration order, a run of the resolver whose synchronous
iteration is already at a fixed point by step 10 computes exactly that
fixed point: the final flags agree with `sFlags 10` and the final cache
holds exactly the known names plus the names of fixed-point models. -/
theorem resolve_char (models : List PyModel) (ord : List Nat)
    (hd : DistinctNames models)
    (hcov : ∀ i, i < models.length → i ∈ ord)
    (hfp : sFlags models 10 = sFlags models 11) :
    (∀ i, flagAt (resolveMailThread models ord) i =
      (sFlags models 10).getD i false) ∧
    (∀ nm, inCache (resolveMailThread models ord) nm =
      (sCacheOf models (sFlags models 10)).contains nm) := by
  have hfix : sStep models (sFlags models 10) = sFlags models 10 := hfp.symm
  have hgF : GoodS models (resolveMailThread models ord) :=
    resolveLoop_good models ord 10 (initState models) (initState_good models)
  have hub : UBInv models (sFlags models 10) (resolveMailThread models ord) :=
    resolveLoop_UB models (sFlags models 10) ord 10 (initState models) hfix
      (initState_good models) (initState_UB models)
  have hlb : Pflags models 10 (resolveMailThread models ord) := by
    have := resolveLoop_LB models ord hd hcov 10 0 (initState models)
      (initState_good models) (initState_Pflags0 models)
    simpa using this
  have hflags : ∀ i, flagAt (resolveMailThread models ord) i =
      (sFlags models 10).getD i false := by
    intro i
    cases hS : (sFlags models 10).getD i false with
    | true => exact hlb i hS
    | false =>
      cases hf : flagAt (resolveMailThread models ord) i with
      | false => rfl
      | true => rw [← hS, hub.1 i hf]
  refine ⟨hflags, ?_⟩
  intro nm
  cases hc : (sCacheOf models (sFlags models 10)).contains nm with
  | true =>
    rcases (sCacheOf_contains models _ nm).mp hc with hk | ⟨i, hi, hf, hn⟩
    · exact hgF.known_sub nm hk
    · exact hgF.nf i nm (by rw [hflags i]; exact hf) hn
  | false =>
    cases hcf : inCache (resolveMailThread models ord) nm with
    | false => rfl
    | true => rw [← hc, hub.2 nm hcf]

/-- C1 (amended).  Provided the models declare pairwise-distinct `_name`
values and the synchronous propagation reaches its fixed point within the
ten-pass bound (as it does for every inheritance chain of depth at most
ten), resolving under any two iteration orders of the models yields the
same `has_mail_thread` flags and the same cache membership.  The claim as
stated, without the bound, is refuted by
`resolve_not_permutation_invariant`. -/
theorem resolve_permutation_invariant_within_bound (models : List PyModel)
    (ord₁ ord₂ : List Nat) (h₁ : ord₁.Perm (List.range models.length))
    (h₂ : ord₂.Perm (List.range models.length)) (hd : DistinctNames models)
    (hfp : sFlags models 10 = sFlags models 11) :
    (resolveMailThread models ord₁).flags =
      (resolveMailThread models ord₂).flags ∧
    ∀ nm, inCache (resolveMailThread models ord₁) nm =
      inCache (resolveMailThread models ord₂) nm := by
  have hcov₁ : ∀ i, i < models.length → i ∈ ord₁ := fun i hi =>
    h₁.mem_iff.mpr (List.mem_range.mpr hi)
  have hcov₂ : ∀ i, i < models.length → i ∈ ord₂ := fun i hi =>
    h₂.mem_iff.mpr (List.mem_range.mpr hi)
  obtain ⟨hf₁, hc₁⟩ := resolve_char models ord₁ hd hcov₁ hfp
  obtain ⟨hf₂, hc₂⟩ := resolve_char models ord₂ hd hcov₂ hfp
  constructor
  · have hlen₁ : (resolveMailThread models ord₁).flags.length = models.length :=
      (resolveLoop_good models ord₁ 10 (initState models)
        (initState_good models)).wf
    have hlen₂ : (resolveMailThread models ord₂).flags.length = models.length :=
      (resolveLoop_good models ord₂ 10 (initState models)
        (initState_good models)).wf
    apply List.ext_getElem (hlen₁.trans hlen₂.symm)
    intro i hi₁ hi₂
    have e₁ := (List.getD_eq_getElem
      (resolveMailThread models ord₁).flags false hi₁).symm
    have e₂ := (List.getD_eq_getElem
      (resolveMailThread models ord₂).flags false hi₂).symm
    rw [e₁, e₂]
    show flagAt (resolveMailThread models ord₁) i =
      flagAt (resolveMailThread models ord₂) i
    rw [hf₁ i, hf₂ i]
  · intro nm
    rw [hc₁ nm, hc₂ nm]

/-- Witness: applying the amended C1 to the concrete two-model chain with
its two iteration orders. -/
theorem resolve_permutation_invariant_within_bound_witness :
    (resolveMailThread exChain2 [0, 1]).flags =
      (resolveMailThread exChain2 [1, 0]).flags :=
  (resolve_permutation_invariant_within_bound exChain2 [0, 1] [1, 0]
    (by decide) (by decide) (by unfold DistinctNames; decide) (by decide)).1

/-! ## C2 (amended): every chain within the bound is marked -/

theorem length_reachFlags (models : List PyModel) (k : Nat) :
    (reachFlags models k).length = models.length := by
  cases k with
  | zero => simp [reachFlags]
  | succ k => simp [reachFlags]

theorem reachB_of_le (models : List PyModel) (k i : Nat)
    (h : models.length ≤ i) : reachB models k i = false :=
  List.getD_eq_default _ _ (by rw [length_reachFlags]; exact h)

theorem reachB_zero_getD (models : List PyModel) (i : Nat)
    (h : i < models.length) :
    reachB models 0 i =
      (mdl models i).inherit.any
        (fun p => KNOWN_MAIL_THREAD_MODELS.contains p) := by
  unfold reachB reachFlags
  rw [List.getD_eq_getElem _ _ (by simpa using h)]
  simp [mdl_lt models i h]

theorem reachFlags_succ (models : List PyModel) (k : Nat) :
    reachFlags models (k + 1) =
      (List.range models.length).map (fun i =>
        (reachFlags models k).getD i false ||
          (mdl models i).inherit.any (fun p =>
            (List.range models.length).any (fun j =>
              ((mdl models j).name == some p) &&
                (reachFlags models k).getD j false))) := rfl

theorem reachB_succ_getD (models : List PyModel) (k i : Nat)
    (h : i < models.length) :
    reachB models (k + 1) i =
      (reachB models k i ||
        (mdl models i).inherit.any (fun p =>
          (List.range models.length).any (fun j =>
            ((mdl models j).name == some p) && reachB models k j))) := by
  unfold reachB
  rw [reachFlags_succ]
  exact getD_map_range _ _ _ h

theorem eff_of_flag (models : List PyModel) (s : RState) (i : Nat)
    (h : flagAt s i = true) : modelHasMailThread models s i = true := by
  simp [modelHasMailThread, h]

theorem eff_of_parent (models : List PyModel) (s : RState) (i : Nat)
    (p : String) (hp : p ∈ (mdl models i).inherit)
    (hc : inCache s p = true) : modelHasMailThread models s i = true := by
  have hany : ((mdl models i).inherit.any fun q => inCache s q) = true :=
    List.any_eq_true.mpr ⟨p, hp, hc⟩
  simp [modelHasMailThread, hany]

theorem eff_elim (models : List PyModel) (s : RState) (j : Nat)
    (h : modelHasMailThread models s j = true) :
    flagAt s j = true ∨
      (∃ nm, (mdl models j).name = some nm ∧ inCache s nm = true) ∨
      ((mdl models j).inherit.any fun p => inCache s p) = true := by
  cases hn : (mdl models j).name with
  | none =>
    simp only [modelHasMailThread, hn, Bool.or_eq_true] at h
    rcases h with (h' | h') | h'
    · exact Or.inl h'
    · exact absurd h' (by simp)
    · exact Or.inr (Or.inr h')
  | some nm =>
    simp only [modelHasMailThread, hn, Bool.or_eq_true] at h
    rcases h with (h' | h') | h'
    · exact Or.inl h'
    · exact Or.inr (Or.inl ⟨nm, rfl, h'⟩)
    · exact Or.inr (Or.inr h')

theorem eff_mono (models : List PyModel) (s t : RState) (i : Nat)
    (hle : StateLE s t) (h : modelHasMailThread models s i = true) :
    modelHasMailThread models t i = true := by
  rcases eff_elim models s i h with h' | ⟨nm, hn, hc⟩ | h'
  · exact eff_of_flag models t i (hle.1 i h')
  · simp [modelHasMailThread, hn, hle.2 nm hc]
  · rcases List.any_eq_true.mp h' with ⟨p, hp, hc⟩
    exact eff_of_parent models t i p hp (hle.2 p hc)

/-- If the name of a model with a cached parent is among the indices still
to be processed, after the fold that name is cached. -/
theorem foldl_caches (models : List PyModel) (s₀ : RState) (j : Nat)
    (p : String) (hn : (mdl models j).name = some p)
    (hpar : ((mdl models j).inherit.any fun q => inCache s₀ q) = true) :
    ∀ (l : List Nat) (acc : RState × Bool), j ∈ l →
      StateLE s₀ acc.1 →
      inCache (l.foldl (stepModel models) acc).1 p = true := by
  intro l
  induction l with
  | nil => intro acc hmem; exact absurd hmem (by simp)
  | cons a t ih =>
    intro acc hmem hle
    by_cases haj : a = j
    · subst haj
      rw [List.foldl_cons]
      rcases stepModel_spec3 models acc a with ⟨hs, he⟩ | ⟨_, hp, _⟩ | ⟨_, _, he⟩
      · rw [skipModel_eq_name models acc.1 a p hn] at hs
        exact (foldl_stepModel_le models t (stepModel models acc a)).2 p
          ((stepModel_le models acc a).2 p hs)
      · exact absurd (any_inCache_mono _ s₀ acc.1 hle hpar)
          (by rw [hp]; simp)
      · rw [he]
        exact (foldl_stepModel_le models t (markState models acc.1 a, true)).2 p
          (inCache_markState_name models acc.1 a p hn)
    · have hjt : j ∈ t := by
        rcases List.mem_cons.mp hmem with h | h
        · exact absurd h.symm haj
        · exact h
      rw [List.foldl_cons]
      exact ih (stepModel models acc a) hjt
        (StateLE.trans hle (stepModel_le models acc a))

/-- `reachB k` is a lower bound for effective marking. -/
def Peff (models : List PyModel) (k : Nat) (s : RState) : Prop :=
  ∀ i, reachB models k i = true → modelHasMailThread models s i = true

theorem reach_succ_elim (models : List PyModel) (k i : Nat)
    (hin : i < models.length) (h : reachB models (k + 1) i = true) :
    reachB models k i = true ∨
      ∃ p, p ∈ (mdl models i).inherit ∧
        ∃ j, j < models.length ∧ (mdl models j).name = some p ∧
          reachB models k j = true := by
  rw [reachB_succ_getD models k i hin] at h
  simpa using h

theorem reach_zero_elim (models : List PyModel) (i : Nat)
    (hin : i < models.length) (h : reachB models 0 i = true) :
    ∃ p, p ∈ (mdl models i).inherit ∧
      KNOWN_MAIL_THREAD_MODELS.contains p = true := by
  rw [reachB_zero_getD models i hin] at h
  exact List.any_eq_true.mp h

theorem reach_lt (models : List PyModel) (k i : Nat)
    (h : reachB models k i = true) : i < models.length := by
  by_contra hge
  rw [reachB_of_le models k i (Nat.le_of_not_lt hge)] at h
  exact absurd h (by simp)

theorem onePass_eff (models : List PyModel) (ord : List Nat) (k : Nat)
    (s : RState) (hcov : ∀ i, i < models.length → i ∈ ord)
    (hg : GoodS models s) (h : Peff models k s) :
    Peff models (k + 1) (onePass models ord s).1 := by
  intro i hr
  have hin : i < models.length := reach_lt models (k + 1) i hr
  rcases reach_succ_elim models k i hin hr with hprev | ⟨p, hp, j, hj, hnj, hrj⟩
  · exact eff_mono models s _ i (onePass_le models ord s) (h i hprev)
  · rcases eff_elim models s j (h j hrj) with hf | ⟨nm, hn, hc⟩ | hpj
    · have : inCache s p = true := hg.nf j p hf hnj
      exact eff_of_parent models _ i p hp ((onePass_le models ord s).2 p this)
    · rw [hnj] at hn
      have : inCache s p = true := by
        rcases (by simpa using hn : p = nm) with rfl
        exact hc
      exact eff_of_parent models _ i p hp ((onePass_le models ord s).2 p this)
    · have : inCache (onePass models ord s).1 p = true :=
        foldl_caches models s j p hnj hpj ord (s, false) (hcov j hj)
          (StateLE.refl s)
      exact eff_of_parent models _ i p hp this

theorem closed_Peff (models : List PyModel) (ord : List Nat) (s : RState)
    (hcov : ∀ i, i < models.length → i ∈ ord) (hg : GoodS models s)
    (hch : (onePass models ord s).2 = false) :
    ∀ k, Peff models k s := by
  have hnoop : ∀ j ∈ ord, stepModel models (s, false) j = (s, false) :=
    (foldl_noChange models ord s hch).2
  intro k
  induction k with
  | zero =>
    intro i hr
    have hin : i < models.length := reach_lt models 0 i hr
    rcases reach_zero_elim models i hin hr with ⟨p, hp, hk⟩
    exact eff_of_parent models s i p hp (hg.known_sub p hk)
  | succ k ih =>
    intro i hr
    have hin : i < models.length := reach_lt models (k + 1) i hr
    rcases reach_succ_elim models k i hin hr with hprev | ⟨p, hp, j, hj, hnj, hrj⟩
    · exact ih i hprev
    · rcases eff_elim models s j (ih j hrj) with hf | ⟨nm, hn, hc⟩ | hpj
      · exact eff_of_parent models s i p hp (hg.nf j p hf hnj)
      · rw [hnj] at hn
        rcases (by simpa using hn : p = nm) with rfl
        exact eff_of_parent models s i p hp hc
      · rcases noChange_disj models s j (hnoop j (hcov j hj)) with hs | hpe
        · rw [skipModel_eq_name models s j p hnj] at hs
          exact eff_of_parent models s i p hp hs
        · rw [hpj] at hpe
          exact absurd hpe (by simp)

theorem resolveLoop_eff (models : List PyModel) (ord : List Nat)
    (hcov : ∀ i, i < models.length → i ∈ ord) :
    ∀ (fuel k : Nat) (s : RState), GoodS models s → Peff models k s →
      Peff models (k + fuel) (resolveLoop models ord fuel s) := by
  intro fuel
  induction fuel with
  | zero => intro k s _ h; simpa using h
  | succ fuel ih =>
    intro k s hg h
    unfold resolveLoop
    cases hch : (onePass models ord s).2 with
    | true =>
      simp only [hch, if_true]
      have := ih (k + 1) (onePass models ord s).1
        (onePass_good models ord s hg)
        (onePass_eff models ord k s hcov hg h)
      rw [show k + 1 + fuel = k + (fuel + 1) by omega] at this
      exact this
    | false =>
      simp only [hch, Bool.false_eq_true, if_false]
      have hstay : (onePass models ord s).1 = s :=
        congrArg Prod.fst (foldl_noChange models ord s hch).1
      rw [hstay]
      exact closed_Peff models ord s hcov hg hch (k + (fuel + 1))

theorem initState_Peff (models : List PyModel) :
    Peff models 0 (initState models) := by
  intro i hr
  have hin : i < models.length := reach_lt models 0 i hr
  rcases reach_zero_elim models i hin hr with ⟨p, hp, hk⟩
  exact eff_of_parent models _ i p hp ((initState_good models).known_sub p hk)

/-- C2 (amended).  Every model that transitively inherits a mail-thread
capability through a chain of at most ten in-module links (the iteration
bound) is marked after resolution — in the sense checked by
`_model_has_mail_thread` — whatever order the models are iterated in.  For
chains longer than the bound this fails, see `resolve_misses_deep_chain`. -/
theorem resolve_marks_bounded_chains (models : List PyModel)
    (ord : List Nat) (hcov : ∀ j, j < models.length → j ∈ ord) (i : Nat)
    (h : reachB models 10 i = true) :
    modelHasMailThread models (resolveMailThread models ord) i = true := by
  have := resolveLoop_eff models ord hcov 10 0 (initState models)
    (initState_good models) (initState_Peff models)
  exact (by simpa using this : Peff models 10 (resolveMailThread models ord)) i h

/-- Witness: the amended C2 applied to the two-model chain iterated in
reverse order. -/
theorem resolve_marks_bounded_chains_witness :
    modelHasMailThread exChain2 (resolveMailThread exChain2 [1, 0]) 1 = true :=
  resolve_marks_bounded_chains exChain2 [1, 0] (by decide) 1 (by decide)

/-! ## Embedding of `checks_odoo_module_po.py`

`PRINTF_PATTERN` is hand-compiled into a backtracking matcher over
character lists: alternatives are tried in the regex's order, and the
greedy-with-giveback behaviour of `\d+`/`\d*` groups is reproduced by
trying the longest digit prefix first.  Note the source regex writes the
length modifiers as `(hh\|h\|l\|ll)?`, which matches the *literal* string
"hh|h|l|ll"; the embedding reproduces that faithfully. -/

namespace PO

def isWordChar (c : Char) : Bool := c.isAlphanum || c == '_'

def isTypeChar (c : Char) : Bool := isWordChar c || c == '@'

def takeDigits : List Char → List Char × List Char
  | [] => ([], [])
  | c :: rest =>
    if c.isDigit then
      let r := takeDigits rest
      (c :: r.1, r.2)
    else ([], c :: rest)

def takeWord : List Char → List Char × List Char
  | [] => ([], [])
  | c :: rest =>
    if isWordChar c then
      let r := takeWord rest
      (c :: r.1, r.2)
    else ([], c :: rest)

/-- `re.sub("%%", "", s)`: remove non-overlapping `%%` pairs left to
right. -/
def stripDoublePercent : List Char → List Char
  | '%' :: '%' :: rest => stripDoublePercent rest
  | c :: rest => c :: stripDoublePercent rest
  | [] => []

def splitOnNlAux : List Char → List Char → List (List Char)
  | [], acc => [acc.reverse]
  | '\n' :: rest, acc => acc.reverse :: splitOnNlAux rest []
  | c :: rest, acc => splitOnNlAux rest (c :: acc)

/-- `str.splitlines` as used here (the PO strings contain only `\n`
terminators; like `split("\n")` an empty trailing line contributes no
matches). -/
def splitOnNl (cs : List Char) : List (List Char) := splitOnNlAux cs []

/-- One `PRINTF_PATTERN` match: the named groups the extractor reads.
`type` is `none` only for the boost-style branch `%N%`. -/
structure PrintfMatch where
  key : Option String
  type : Option Char
deriving DecidableEq, Repr

def firstSome {α β : Type} (f : α → Option β) : List α → Option β
  | [] => none
  | a :: rest =>
    match f a with
    | some b => some b
    | none => firstSome f rest

/-- Flags `[+#-]*` (greedy; no giveback can ever help, as flag characters
can satisfy no later part of the pattern). -/
def takeSpecFlags : List Char → List Char
  | c :: rest =>
    if c == '+' || c == '#' || c == '-' then takeSpecFlags rest
    else c :: rest
  | [] => []

/-- Candidate remainders after the width `(?:\d+)?`, longest first. -/
def widthCandidates (cs : List Char) : List (List Char) :=
  let n := (takeDigits cs).1.length
  (List.range (n + 1)).map (fun back => cs.drop (n - back))

/-- Candidate remainders after the precision `(?:\.\d+)?`: present (with at
least one digit, longest first), then absent. -/
def precCandidates (cs : List Char) : List (List Char) :=
  match cs with
  | '.' :: rest =>
    let n := (takeDigits rest).1.length
    ((List.range n).map (fun back => rest.drop (n - back))) ++ [cs]
  | _ => [cs]

/-- The length group `(hh\|h\|l\|ll)?`: the literal string "hh|h|l|ll",
present first, then absent. -/
def lengthCandidates (cs : List Char) : List (List Char) :=
  if cs.take 9 = "hh|h|l|ll".toList then [cs.drop 9, cs] else [cs]

def matchType : List Char → Option (Char × List Char)
  | c :: rest => if isTypeChar c then some (c, rest) else none
  | [] => none

/-- The `fullvar` part: flags, width, precision, length, then the type
character, with regex-order backtracking. -/
def matchFullvar (cs : List Char) : Option (Char × List Char) :=
  let cs1 := takeSpecFlags cs
  firstSome (fun csW =>
      firstSome (fun csP => firstSome matchType (lengthCandidates csP))
        (precCandidates csW))
    (widthCandidates cs1)

/-- The optional prefix `(?:(?P<ord>\d+)\$|\((?P<key>\w+)\))?`: ord branch,
then key branch, then absent — each deterministic because `$` and `)` are
not digit/word characters. -/
def ordKeyCandidates (cs : List Char) : List (Option String × List Char) :=
  let ordCand : List (Option String × List Char) :=
    match takeDigits cs with
    | ([], _) => []
    | (_ :: _, '$' :: rest2) => [(none, rest2)]
    | (_ :: _, _) => []
  let keyCand : List (Option String × List Char) :=
    match cs with
    | '(' :: rest =>
      match takeWord rest with
      | ([], _) => []
      | (ws, ')' :: rest3) => [(some (String.mk ws), rest3)]
      | (_, _) => []
    | _ => []
  ordCand ++ keyCand ++ [(none, cs)]

/-- Try to match `PRINTF_PATTERN` right after a `%`. -/
def matchAfterPercent (cs : List Char) : Option (PrintfMatch × List Char) :=
  let boost : Option (PrintfMatch × List Char) :=
    match takeDigits cs with
    | ([], _) => none
    | (_ :: _, '%' :: rest) => some (⟨none, none⟩, rest)
    | (_ :: _, _) => none
  match boost with
  | some r => some r
  | none =>
    firstSome (fun pre =>
        match matchFullvar pre.2 with
        | some (t, rest) => some (⟨pre.1, some t⟩, rest)
        | none => none)
      (ordKeyCandidates cs)

/-- `finditer`: scan left to right, taking non-overlapping matches. -/
def findMatches : Nat → List Char → List PrintfMatch
  | 0, _ => []
  | _, [] => []
  | fuel + 1, c :: rest =>
    if c == '%' then
      match matchAfterPercent rest with
      | some (m, rest2) => m :: findMatches fuel rest2
      | none => findMatches fuel rest
    else findMatches fuel rest

/-- A dummy substitution value: the extractor uses `""` for `s`-typed
placeholders and `0` otherwise; `vmap` stands for the mapping object
itself, which CPython hands to the first bare specifier when the right
operand of `%` is a dict. -/
inductive PVal where
  | vstr : String → PVal
  | vint : Int → PVal
  | vmap : PVal
deriving DecidableEq, Repr

/-- `dict[key] = var` (overwrite or append). -/
def assocSet {α : Type} (m : List (String × α)) (k : String) (v : α) :
    List (String × α) :=
  if m.any (fun p => p.1 == k) then
    m.map (fun p => if p.1 == k then (p.1, v) else p)
  else m ++ [(k, v)]

def lookupAssoc {α : Type} (m : List (String × α)) (k : String) : Option α :=
  (m.find? (fun p => p.1 == k)).map (fun p => p.2)

/-- `_get_printf_str_args_kwargs`: strip `%%`, then per line collect dummy
args (keyless matches, in order) and kwargs (keyed matches). -/
def getPrintfStrArgsKwargs (printf_str : String) :
    List PVal × List (String × PVal) :=
  let stripped := stripDoublePercent printf_str.toList
  let lines := splitOnNl stripped
  let ms := lines.flatMap (fun l => findMatches l.length l)
  ms.foldl (fun acc m =>
      let var := if m.type == some 's' then PVal.vstr "" else PVal.vint 0
      match m.key with
      | none => (acc.1 ++ [var], acc.2)
      | some k => (acc.1, assocSet acc.2 k var))
    ([], [])

/-- `tuple(args) or kwargs`: a non-empty tuple wins, else the kwargs dict,
else falsy. -/
inductive PrintfArgs where
  | tupleArgs : List PVal → PrintfArgs
  | mapArgs : List (String × PVal) → PrintfArgs
  | emptyArgs : PrintfArgs
deriving DecidableEq, Repr

def printfArgsOf (s : String) : PrintfArgs :=
  let r := getPrintfStrArgsKwargs s
  if r.1 ≠ [] then .tupleArgs r.1
  else if r.2 ≠ [] then .mapArgs r.2
  else .emptyArgs

/-! CPython `%`-rendering semantics, restricted to what dummy values can
exercise: conversion-type compatibility, key lookup (with nested-paren
keys), and positional-argument accounting.  Widths and precisions given as
`*` fetch an argument that must be an int. -/

def convOk (v : PVal) (c : Char) : Bool :=
  if c == 's' || c == 'r' || c == 'a' then true
  else if c == 'd' || c == 'i' || c == 'u' || c == 'o' || c == 'x' ||
      c == 'X' || c == 'e' || c == 'E' || c == 'f' || c == 'F' ||
      c == 'g' || c == 'G' || c == 'c' then
    match v with
    | .vint _ => true
    | _ => false
  else false

/-- Read a parenthesized mapping key, with `(`/`)` nesting as CPython
does.  Returns `none` on "incomplete format key". -/
def readKey (depth : Nat) (acc : List Char) : List Char →
    Option (String × List Char)
  | [] => none
  | c :: rest =>
    if c == ')' then
      if depth == 1 then some (String.mk acc.reverse, rest)
      else readKey (depth - 1) (c :: acc) rest
    else if c == '(' then readKey (depth + 1) (c :: acc) rest
    else readKey depth (c :: acc) rest

def skipRenderFlags : List Char → List Char
  | c :: rest =>
    if c == '-' || c == '+' || c == ' ' || c == '#' || c == '0' then
      skipRenderFlags rest
    else c :: rest
  | [] => []

/-- Fetch the next positional value: for a mapping right operand CPython
hands out the mapping itself exactly once; for a tuple, the next element. -/
def fetchValue (kw : Option (List (String × PVal))) (args : List PVal)
    (bareUsed : Bool) : Option (PVal × List PVal × Bool) :=
  match kw with
  | some _ => if bareUsed then none else some (PVal.vmap, args, true)
  | none =>
    match args with
    | [] => none
    | a :: rest => some (a, rest, bareUsed)

/-- Width or precision: `*` fetches an int argument, digits are consumed. -/
def widthPart (kw : Option (List (String × PVal))) (cs : List Char)
    (args : List PVal) (bareUsed : Bool) :
    Option (List Char × List PVal × Bool) :=
  match cs with
  | '*' :: rest =>
    match fetchValue kw args bareUsed with
    | some (PVal.vint _, args', bu') => some (rest, args', bu')
    | _ => none
  | _ => some ((takeDigits cs).2, args, bareUsed)

/-- Parse one conversion specifier after `%` and check its value. -/
def renderSpec (kw : Option (List (String × PVal))) (cs : List Char)
    (args : List PVal) (bareUsed : Bool) :
    Option (List Char × List PVal × Bool) :=
  let keyed : Option (Option PVal × List Char) :=
    match cs with
    | '(' :: rest =>
      match readKey 1 [] rest with
      | none => none
      | some (k, rest2) =>
        match kw with
        | none => none
        | some m =>
          match lookupAssoc m k with
          | none => none
          | some v => some (some v, rest2)
    | _ => some (none, cs)
  match keyed with
  | none => none
  | some (v?, cs1) =>
    match widthPart kw (skipRenderFlags cs1) args bareUsed with
    | none => none
    | some (cs2, args₂, bu₂) =>
      let afterPrec : Option (List Char × List PVal × Bool) :=
        match cs2 with
        | '.' :: rest => widthPart kw rest args₂ bu₂
        | _ => some (cs2, args₂, bu₂)
      match afterPrec with
      | none => none
      | some (cs3, args₃, bu₃) =>
        let cs4 :=
          match cs3 with
          | c :: rest =>
            if c == 'h' || c == 'l' || c == 'L' then rest else cs3
          | [] => cs3
        match cs4 with
        | [] => none
        | c :: rest =>
          if c == '%' then some (rest, args₃, bu₃)
          else
            match v? with
            | some v => if convOk v c then some (rest, args₃, bu₃) else none
            | none =>
              match fetchValue kw args₃ bu₃ with
              | none => none
              | some (v, args₄, bu₄) =>
                if convOk v c then some (rest, args₄, bu₄) else none

/-- Scan a format string, rendering each specifier; `true` means the
CPython `%` operator would succeed on the dummy values. -/
def renderScan (kw : Option (List (String × PVal))) :
    Nat → List Char → List PVal → Bool → Bool
  | 0, _, _, _ => false
  | _ + 1, [], args, _ =>
    (match kw with
     | some _ => true
     | none => args.isEmpty)
  | fuel + 1, '%' :: rest, args, bu =>
    (match renderSpec kw rest args bu with
     | none => false
     | some (rest2, args', bu') => renderScan kw fuel rest2 args' bu')
  | fuel + 1, _ :: rest, args, bu => renderScan kw fuel rest args bu

def renderOk (fmt : String) (pargs : PrintfArgs) : Bool :=
  match pargs with
  | .tupleArgs t => renderScan none (fmt.toList.length + 1) fmt.toList t false
  | .mapArgs m =>
    renderScan (some m) (fmt.toList.length + 1) fmt.toList [] false
  | .emptyArgs => true

/-- `ChecksOdooModulePO.parse_printf`, as a predicate: `true` when no
`PrintfStringParseError` is raised. -/
def parse_printf (main_str secondary_str : String) : Bool :=
  match printfArgsOf main_str with
  | .emptyArgs => true
  | pargs =>
    if renderOk main_str pargs then renderOk secondary_str pargs
    else true

/-! `string.Formatter().parse` and `str.format`, restricted to the simple
field forms (`{}`/`{0}`/`{name}`, with conversion/format-spec parts
skipped over, nested braces counted).  A `ValueError` is `none`. -/

/-- Skip a conversion/format-spec part up to the matching `}`. -/
def skipSpec : Nat → Nat → List Char → Option (List Char)
  | 0, _, _ => none
  | _ + 1, _, [] => none
  | fuel + 1, depth, c :: rest =>
    if c == '}' then
      if depth == 0 then some rest else skipSpec fuel (depth - 1) rest
    else if c == '{' then skipSpec fuel (depth + 1) rest
    else skipSpec fuel depth rest

/-- Read a replacement field after `{`: the field name up to `!`, `:` or
`}`. -/
def readField : Nat → List Char → List Char → Option (String × List Char)
  | 0, _, _ => none
  | _ + 1, [], _ => none
  | fuel + 1, c :: rest, acc =>
    if c == '}' then some (String.mk acc.reverse, rest)
    else if c == ':' || c == '!' then
      match skipSpec fuel 0 rest with
      | none => none
      | some rest2 => some (String.mk acc.reverse, rest2)
    else readField fuel rest (c :: acc)

/-- Field names of one line, or `none` on a `ValueError`. -/
def lineFields : Nat → List Char → List String → Option (List String)
  | 0, _, _ => none
  | _ + 1, [], acc => some acc.reverse
  | fuel + 1, '{' :: '{' :: rest, acc => lineFields fuel rest acc
  | fuel + 1, '}' :: '}' :: rest, acc => lineFields fuel rest acc
  | _ + 1, '}' :: _, _ => none
  | fuel + 1, '{' :: rest, acc =>
    (match readField fuel rest [] with
     | none => none
     | some (nm, rest2) => lineFields fuel rest2 (nm :: acc))
  | fuel + 1, _ :: rest, acc => lineFields fuel rest acc

def digitsToNat (s : String) : Nat :=
  s.toList.foldl (fun a c => a * 10 + (c.toNat - '0'.toNat)) 0

/-- `_get_format_str_args_kwargs`, before the `range` post-processing. -/
def getFormatStrArgsKwargs (format_str : String) :
    List Int × List (String × Int) :=
  (splitOnNl format_str.toList).foldl (fun acc line =>
      match lineFields (line.length + 1) line [] with
      | none => acc
      | some names =>
        names.foldl (fun acc2 nm =>
            if nm == "" then (acc2.1 ++ [(0 : Int)], acc2.2)
            else if nm ≠ "" ∧ nm.toList.all (fun c => c.isDigit) then
              (acc2.1 ++ [(digitsToNat nm : Int) + 1], acc2.2)
            else (acc2.1, assocSet acc2.2 nm (0 : Int)))
          acc)
    ([], [])

/-- The `range` post-processing of `_get_format_str_args_kwargs`. -/
def formatArgsOf (s : String) : List Int × List (String × Int) :=
  let r := getFormatStrArgsKwargs s
  let args :=
    if r.1 = [] then []
    else
      let maxVal := r.1.foldl max 0
      if maxVal == 0 then (List.range r.1.length).map Int.ofNat
      else (List.range maxVal.toNat).map Int.ofNat
  (args, r.2)

/-- Auto-numbering state of `str.format`. -/
inductive AutoMode where
  | unset : AutoMode
  | auto : Nat → AutoMode
  | manual : AutoMode
deriving DecidableEq, Repr

/-- `str.format(*pos, **kwargs)` over int dummies: `true` when rendering
succeeds. -/
def formatRender (pos : List Int) (kwargs : List (String × Int)) :
    Nat → List Char → AutoMode → Bool
  | 0, _, _ => false
  | _ + 1, [], _ => true
  | fuel + 1, '{' :: '{' :: rest, m => formatRender pos kwargs fuel rest m
  | fuel + 1, '}' :: '}' :: rest, m => formatRender pos kwargs fuel rest m
  | _ + 1, '}' :: _, _ => false
  | fuel + 1, '{' :: rest, m =>
    (match readField fuel rest [] with
     | none => false
     | some (nm, rest2) =>
       if nm == "" then
         match m with
         | .manual => false
         | .unset =>
           if 0 < pos.length then
             formatRender pos kwargs fuel rest2 (.auto 1)
           else false
         | .auto k =>
           if k < pos.length then
             formatRender pos kwargs fuel rest2 (.auto (k + 1))
           else false
       else if nm.toList.all (fun c => c.isDigit) then
         match m with
         | .auto _ => false
         | _ =>
           if digitsToNat nm < pos.length then
             formatRender pos kwargs fuel rest2 .manual
           else false
       else
         match lookupAssoc kwargs nm with
         | some _ => formatRender pos kwargs fuel rest2 m
         | none => false)
  | fuel + 1, _ :: rest, m => formatRender pos kwargs fuel rest m

def formatRenderStr (s : String) (pos : List Int)
    (kwargs : List (String × Int)) : Bool :=
  formatRender pos kwargs (s.toList.length + 1) s.toList .unset

/-- `ChecksOdooModulePO.parse_format`, as a predicate: `true` when no
`FormatStringParseError` is raised. -/
def parse_format (main_str secondary_str : String) : Bool :=
  let r := formatArgsOf main_str
  if r.1 = [] ∧ r.2 = [] then true
  else if formatRenderStr main_str r.1 r.2 then
    formatRenderStr secondary_str r.1 r.2
  else true

/-- The format-compatibility portion of `ChecksOdooModulePO._visit_entry`:
run only for a non-empty `msgstr` with the `python-format` flag; a printf
failure is reported as `po_python_parse_printf` (and `parse_format` is then
not reached), otherwise a format failure as `po_python_parse_format`. -/
def entryFormatErrors (msgid msgstr : String) (flags : List String) :
    List String :=
  if msgstr ≠ "" ∧ flags.contains "python-format" then
    if parse_printf msgid msgstr = false then ["po_python_parse_printf"]
    else if parse_format msgid msgstr = false then ["po_python_parse_format"]
    else []
  else []

end PO

/-- C4.  For a python-format entry with reference `"%(name)s, %(count)d"`:
the candidate `"%(cuenta)d, %(nombre)s"` (keys renamed) yields exactly one
`po_python_parse_printf` diagnostic, while `"%(count)d - %(name)s"` (same
keys, order changed) yields none. -/
theorem po_printf_key_rename_detected :
    PO.entryFormatErrors "%(name)s, %(count)d" "%(cuenta)d, %(nombre)s"
        ["python-format"] = ["po_python_parse_printf"] ∧
      PO.entryFormatErrors "%(name)s, %(count)d" "%(count)d - %(name)s"
        ["python-format"] = [] := by
  constructor
  · rfl
  · rfl

/-! ## Embedding of the severity system (`checks_odoo_module.py`) -/

/-- `DEFAULT_SEVERITY`, verbatim; severities are the strings of the
`Severity` class (`"error"`, `"warning"`, `"info"`). -/
def DEFAULT_SEVERITY : List (String × String) :=
  [("xml_syntax_error", "error"),
   ("csv_syntax_error", "error"),
   ("python_syntax_error", "error"),
   ("manifest_syntax_error", "error"),
   ("po_syntax_error", "error"),
   ("xml_duplicate_record_id", "error"),
   ("csv_duplicate_record_id", "error"),
   ("po_duplicate_message_definition", "error"),
   ("xml_duplicate_fields", "error"),
   ("python_duplicate_field_label", "error"),
   ("python_inconsistent_compute_sudo", "error"),
   ("python_tracking_without_mail_thread", "error"),
   ("python_selection_on_related", "error"),
   ("xml_deprecated_active_id_usage", "error"),
   ("xml_alert_missing_role", "error"),
   ("xml_view_dangerous_replace_low_priority", "warning"),
   ("xml_create_user_wo_reset_password", "warning"),
   ("xml_dangerous_filter_wo_user", "warning"),
   ("xml_hardcoded_id", "warning"),
   ("xml_duplicate_view_priority", "warning"),
   ("xml_deprecated_tree_attribute", "warning"),
   ("xml_deprecated_data_node", "warning"),
   ("xml_deprecated_openerp_xml_node", "warning"),
   ("xml_deprecated_t_raw", "warning"),
   ("xml_deprecated_qweb_directive", "warning"),
   ("xml_button_without_type", "warning"),
   ("python_field_missing_string", "warning"),
   ("python_field_missing_help", "warning"),
   ("python_method_missing_docstring", "warning"),
   ("python_docstring_too_short", "info"),
   ("python_docstring_uninformative", "info"),
   ("po_requires_module", "warning"),
   ("po_python_parse_printf", "warning"),
   ("po_python_parse_format", "warning"),
   ("xml_redundant_module_name", "info"),
   ("xml_not_valid_char_link", "warning"),
   ("missing_readme", "info")]

/-- The configuration facts `SeverityConfig` exposes to the result
aggregation: the `severity:` override section, `disabled_checks` and
`blocking_severities` (already listified; default `["error"]`). -/
structure SeverityConfig where
  configSeverity : List (String × String)
  disabled_checks : List String
  blocking_severities : List String
deriving DecidableEq, Repr

/-- `SeverityConfig._build_severity_map`: defaults overridden by every
config entry whose level is one of the three valid severities. -/
def buildSeverityMap (cfg : SeverityConfig) : List (String × String) :=
  cfg.configSeverity.foldl (fun m p =>
      if p.2 == "error" || p.2 == "warning" || p.2 == "info" then
        PO.assocSet m p.1 p.2
      else m)
    DEFAULT_SEVERITY

/-- `get_severity`: the mapped severity, defaulting to `"warning"`. -/
def get_severity (cfg : SeverityConfig) (check_name : String) : String :=
  (PO.lookupAssoc (buildSeverityMap cfg) check_name).getD "warning"

def is_check_disabled (cfg : SeverityConfig) (check_name : String) : Bool :=
  cfg.disabled_checks.contains check_name

def is_blocking (cfg : SeverityConfig) (severity : String) : Bool :=
  cfg.blocking_severities.contains severity

def should_report (cfg : SeverityConfig) (check_name : String) : Bool :=
  !is_check_disabled cfg check_name

/-- `CheckResult.results`: a `defaultdict(list)` keyed by check name. -/
abbrev Results := List (String × List String)

/-- `self.results[check_name].extend(messages)`. -/
def assocExtend (res : Results) (k : String) (msgs : List String) : Results :=
  match res with
  | [] => [(k, msgs)]
  | p :: rest =>
    if p.1 == k then (p.1, p.2 ++ msgs) :: rest
    else p :: assocExtend rest k msgs

/-- `CheckResult.add`. -/
def addResult (cfg : SeverityConfig) (res : Results) (check_name : String)
    (messages : List String) : Results :=
  if messages = [] then res
  else if should_report cfg check_name then assocExtend res check_name messages
  else res

/-- `CheckResult.add_from_dict`. -/
def addFromDict (cfg : SeverityConfig) (res : Results)
    (checks_errors : List (String × List String)) : Results :=
  checks_errors.foldl (fun r p => addResult cfg r p.1 p.2) res

/-- `CheckResult.has_blocking_issues`. -/
def has_blocking_issues (cfg : SeverityConfig) (res : Results) : Bool :=
  res.any (fun p => !p.2.isEmpty && is_blocking cfg (get_severity cfg p.1))

/-- `CheckResult.get_counts`, as the count for one severity level. -/
def get_counts (cfg : SeverityConfig) (res : Results) (sev : String) : Nat :=
  ((res.filter (fun p => get_severity cfg p.1 == sev)).map
    (fun p => p.2.length)).sum

/-- Blocking set `{error}` and no overrides. -/
def cfgNoOverride : SeverityConfig := ⟨[], [], ["error"]⟩

/-- Blocking set `{error}` with `python_field_missing_help` overridden from
its default `warning` to `error`. -/
def cfgOverrideHelp : SeverityConfig :=
  ⟨[("python_field_missing_help", "error")], [], ["error"]⟩

/-- A unit whose only diagnostics are of kind
`python_field_missing_help`. -/
def exHelpErrors : List (String × List String) :=
  [("python_field_missing_help",
    ["m/models/a.py:10 Field \"x\" is missing help attribute"])]

/-- C5.  `has_blocking_issues` is true iff some retained kind has a
non-empty message list whose resolved severity is blocking; and overriding
`python_field_missing_help` from warning to error with blocking set
`{error}` flips the concrete unit `exHelpErrors` from non-blocking to
blocking while the retained diagnostics themselves are unchanged. -/
theorem has_blocking_issues_iff_and_override_flip :
    (∀ (cfg : SeverityConfig) (res : Results),
      has_blocking_issues cfg res = true ↔
        ∃ p ∈ res, p.2 ≠ [] ∧
          is_blocking cfg (get_severity cfg p.1) = true) ∧
    (addFromDict cfgNoOverride [] exHelpErrors =
        addFromDict cfgOverrideHelp [] exHelpErrors ∧
      has_blocking_issues cfgNoOverride
        (addFromDict cfgNoOverride [] exHelpErrors) = false ∧
      has_blocking_issues cfgOverrideHelp
        (addFromDict cfgOverrideHelp [] exHelpErrors) = true) := by
  constructor
  · intro cfg res
    unfold has_blocking_issues
    rw [List.any_eq_true]
    constructor
    · rintro ⟨p, hp, hc⟩
      rcases Bool.and_eq_true _ _ |>.mp hc with ⟨hne, hb⟩
      refine ⟨p, hp, ?_, hb⟩
      simpa using hne
    · rintro ⟨p, hp, hne, hb⟩
      refine ⟨p, hp, ?_⟩
      rw [hb]
      simpa using hne
  · refine ⟨by decide, by decide, by decide⟩

/-- Witness: the iff applied to the concrete overridden configuration and
its aggregated results. -/
theorem has_blocking_issues_iff_witness :
    ∃ p ∈ addFromDict cfgOverrideHelp [] exHelpErrors, p.2 ≠ [] ∧
      is_blocking cfgOverrideHelp (get_severity cfgOverrideHelp p.1) = true :=
  (has_blocking_issues_iff_and_override_flip.1 cfgOverrideHelp
    (addFromDict cfgOverrideHelp [] exHelpErrors)).mp (by decide)

theorem assocExtend_all (P : String × List String → Bool) (res : Results)
    (k : String) (msgs : List String) (hres : res.all P = true)
    (hk : ∀ ms, P (k, ms) = true) :
    (assocExtend res k msgs).all P = true := by
  induction res with
  | nil => simp [assocExtend, hk msgs]
  | cons p rest ih =>
    rw [List.all_cons] at hres
    rcases Bool.and_eq_true _ _ |>.mp hres with ⟨hp, hrest⟩
    unfold assocExtend
    cases hpk : p.1 == k with
    | true =>
      rw [if_pos rfl, List.all_cons]
      refine Bool.and_eq_true _ _ |>.mpr ⟨?_, hrest⟩
      have hpe : p.1 = k := by simpa using hpk
      rw [hpe]
      exact hk (p.2 ++ msgs)
    | false =>
      rw [if_neg (by simp), List.all_cons]
      exact Bool.and_eq_true _ _ |>.mpr ⟨hp, ih hrest⟩

/-- C10.  A disabled check never enters the results: `add` is the identity
for it, `add_from_dict` ignores every disabled entry (so disabled kinds
never appear in the results), and consequently `has_blocking_issues` is
unchanged by the disabled entries. -/
theorem disabled_checks_never_reported (cfg : SeverityConfig) :
    (∀ (res : Results) (name : String) (msgs : List String),
      is_check_disabled cfg name = true →
        addResult cfg res name msgs = res) ∧
    (∀ (res : Results) (errors : List (String × List String)),
      addFromDict cfg res errors =
        addFromDict cfg res
          (errors.filter (fun p => !(is_check_disabled cfg p.1)))) ∧
    (∀ (res : Results) (errors : List (String × List String)),
      res.all (fun p => !(is_check_disabled cfg p.1)) = true →
        (addFromDict cfg res errors).all
          (fun p => !(is_check_disabled cfg p.1)) = true) ∧
    (∀ (res : Results) (errors : List (String × List String)),
      has_blocking_issues cfg (addFromDict cfg res errors) =
        has_blocking_issues cfg
          (addFromDict cfg res
            (errors.filter (fun p => !(is_check_disabled cfg p.1))))) := by
  have hadd : ∀ (res : Results) (name : String) (msgs : List String),
      is_check_disabled cfg name = true → addResult cfg res name msgs = res := by
    intro res name msgs hdis
    unfold addResult
    by_cases hm : msgs = []
    · simp [hm]
    · simp [hm, should_report, hdis]
  have hdict : ∀ (errors : List (String × List String)) (res : Results),
      addFromDict cfg res errors =
        addFromDict cfg res
          (errors.filter (fun p => !(is_check_disabled cfg p.1))) := by
    intro errors
    induction errors with
    | nil => intro res; rfl
    | cons e rest ih =>
      intro res
      by_cases hd : is_check_disabled cfg e.1 = true
      · have : addResult cfg res e.1 e.2 = res := hadd res e.1 e.2 hd
        simp only [addFromDict, List.foldl_cons, List.filter_cons, hd,
          Bool.not_true, Bool.false_eq_true, if_false, this]
        exact ih res
      · have hd' : is_check_disabled cfg e.1 = false :=
          Bool.not_eq_true _ |>.mp hd
        simp only [addFromDict, List.foldl_cons, List.filter_cons, hd',
          Bool.not_false, if_true]
        exact ih (addResult cfg res e.1 e.2)
  refine ⟨hadd, fun res errors => hdict errors res, ?_, ?_⟩
  · intro res errors
    induction errors generalizing res with
    | nil => intro h; exact h
    | cons e rest ih =>
      intro h
      show (addFromDict cfg (addResult cfg res e.1 e.2) rest).all _ = true
      refine ih _ ?_
      unfold addResult
      by_cases hm : e.2 = []
      · simpa [hm] using h
      · by_cases hd : should_report cfg e.1 = true
        · simp only [hm, if_false, hd, if_true]
          refine assocExtend_all _ res e.1 e.2 h ?_
          intro ms
          have : is_check_disabled cfg e.1 = false := by
            unfold should_report at hd
            simpa using hd
          simp [this]
        · have hd' : should_report cfg e.1 = false :=
            Bool.not_eq_true _ |>.mp hd
          simpa [hm, hd'] using h
  · intro res errors
    rw [← hdict errors res]

/-- Witness: `add` of a disabled kind leaves empty results empty. -/
theorem disabled_checks_never_reported_witness :
    addResult (⟨[], ["python_field_missing_help"], ["error"]⟩ : SeverityConfig)
      [] "python_field_missing_help" ["m"] = [] :=
  (disabled_checks_never_reported
    (⟨[], ["python_field_missing_help"], ["error"]⟩ : SeverityConfig)).1
    [] "python_field_missing_help" ["m"] (by decide)

/-! ## Embedding of changed-file detection (`ChangedFilesDetector`) -/

/-- The outcome of one `git diff` subprocess: `some` lines of stdout when
it exits cleanly, `none` for a `CalledProcessError`. -/
def getChangedFiles (diffBase diffCached : Option (List String)) :
    List String :=
  match diffBase with
  | some files => files.filter (fun f => f ≠ "")
  | none =>
    match diffCached with
    | some files => files.filter (fun f => f ≠ "")
    | none => []

structure ModuleFile where
  filename : String
deriving DecidableEq, Repr

/-- `ChangedFilesDetector.filter_module_files`: keep the files whose
resolved path is in the (resolved) changed set. -/
def filterModuleFiles (realpath : String → String)
    (diffBase diffCached : Option (List String))
    (all_module_files : List ModuleFile) : List ModuleFile :=
  let changed := (getChangedFiles diffBase diffCached).map realpath
  all_module_files.filter (fun f => changed.contains (realpath f.filename))

/-- `ChecksOdooModule._get_files_to_validate`: in "changed" scope the
detector filters; in "full" scope every file is kept. -/
def getFilesToValidate (useChanged : Bool) (realpath : String → String)
    (diffBase diffCached : Option (List String))
    (all_files : List ModuleFile) : List ModuleFile :=
  if all_files = [] then []
  else if useChanged then
    filterModuleFiles realpath diffBase diffCached all_files
  else all_files

/-- C8.  When both the base-branch diff and the staged-diff fallback fail,
`get_changed_files` returns the empty list instead of propagating, and in
"changed" scope `_get_files_to_validate` then returns no files at all —
"nothing in scope", never "everything in scope". -/
theorem changed_detection_fails_soft
    (diffBase diffCached : Option (List String)) (h1 : diffBase = none)
    (h2 : diffCached = none) :
    getChangedFiles diffBase diffCached = [] ∧
    ∀ (realpath : String → String) (files : List ModuleFile),
      getFilesToValidate true realpath diffBase diffCached files = [] := by
  subst h1
  subst h2
  refine ⟨rfl, ?_⟩
  intro realpath files
  unfold getFilesToValidate filterModuleFiles getChangedFiles
  by_cases hf : files = []
  · simp [hf]
  · simp [hf, List.filter_eq_nil_iff]

/-- Witness: a concrete file list is emptied when both diffs fail. -/
theorem changed_detection_fails_soft_witness :
    getFilesToValidate true id none none [⟨"/m/models/a.py"⟩] = [] :=
  (changed_detection_fails_soft none none rfl rfl).2 id [⟨"/m/models/a.py"⟩]

/-! ## Embedding of `check_duplicate_field_labels`

The fields of one model, as the visitor's field dicts expose them to this
check: the assigned name, the captured label (`string`, `None` when
absent) and the line number. -/

structure PyField where
  name : String
  string : Option String
  lineno : Nat
deriving DecidableEq, Repr, Inhabited

/-- `labels[label].append(field)` on a `defaultdict(list)`: update in
place, or append a new key at the end. -/
def labelAppend (acc : List (String × List PyField)) (l : String)
    (f : PyField) : List (String × List PyField) :=
  match acc with
  | [] => [(l, [f])]
  | p :: rest =>
    if p.1 == l then (p.1, p.2 ++ [f]) :: rest
    else p :: labelAppend rest l f

/-- The grouping loop of `check_duplicate_field_labels`: group the fields
with a truthy label by label text, in first-occurrence order. -/
def labelGroups (fields : List PyField) : List (String × List PyField) :=
  fields.foldl (fun acc f =>
      match f.string with
      | none => acc
      | some l => if l == "" then acc else labelAppend acc l f)
    []

/-- The message for one duplicate group, located at its first field. -/
def dupLabelMessage (filename : String) (l : String) (fs : List PyField) :
    String :=
  filename ++ ":" ++ toString ((fs.headD default).lineno) ++ " Fields (" ++
    String.intercalate ", " (fs.map (fun f => f.name)) ++
    ") have the same label: \"" ++ l ++ "\""

/-- `check_duplicate_field_labels` for one model: one message per group of
at least two fields. -/
def check_duplicate_field_labels (filename : String)
    (fields : List PyField) : List String :=
  (labelGroups fields).filterMap (fun p =>
    if 2 ≤ p.2.length then some (dupLabelMessage filename p.1 p.2) else none)

/-- Specification side: all fields carrying exactly label `l`, in source
order (so the head is the first occurrence). -/
def fieldsWithLabel (fields : List PyField) (l : String) : List PyField :=
  fields.filter (fun f => f.string == some l)

def lookupGroups (gs : List (String × List PyField)) (l : String) :
    Option (List PyField) :=
  (gs.find? (fun p => p.1 == l)).map (fun p => p.2)

theorem lookupGroups_labelAppend_same (acc : List (String × List PyField))
    (l : String) (f : PyField) :
    lookupGroups (labelAppend acc l f) l =
      (match lookupGroups acc l with
       | some g => some (g ++ [f])
       | none => some [f]) := by
  induction acc with
  | nil => simp [labelAppend, lookupGroups]
  | cons p rest ih =>
    unfold labelAppend
    cases hpk : p.1 == l with
    | true =>
      rw [if_pos rfl]
      simp [lookupGroups, List.find?_cons, hpk]
    | false =>
      rw [if_neg (by simp)]
      simpa [lookupGroups, List.find?_cons, hpk] using ih

theorem lookupGroups_labelAppend_ne (acc : List (String × List PyField))
    (l l' : String) (f : PyField) (h : (l' == l) = false) :
    lookupGroups (labelAppend acc l f) l' = lookupGroups acc l' := by
  induction acc with
  | nil =>
    have : (l == l') = false := by
      cases he : l == l' with
      | false => rfl
      | true =>
        rw [show l' = l from by simpa using (by simpa using he : l = l').symm] at h
        simp at h
    simp [labelAppend, lookupGroups, List.find?_cons, this]
  | cons p rest ih =>
    unfold labelAppend
    cases hpk : p.1 == l with
    | true =>
      rw [if_pos rfl]
      have hpl : (p.1 == l') = false := by
        have hpe : p.1 = l := by simpa using hpk
        cases hc : p.1 == l' with
        | false => rfl
        | true =>
          have : p.1 = l' := by simpa using hc
          rw [hpe] at this
          rw [show l' = l from this.symm] at h
          simp at h
      simp [lookupGroups, List.find?_cons, hpl]
    | false =>
      rw [if_neg (by simp)]
      cases hpl : p.1 == l' with
      | true => simp [lookupGroups, List.find?_cons, hpl]
      | false => simpa [lookupGroups, List.find?_cons, hpl] using ih

theorem fieldsWithLabel_cons (f : PyField) (rest : List PyField)
    (l : String) :
    fieldsWithLabel (f :: rest) l =
      (if f.string == some l then f :: fieldsWithLabel rest l
       else fieldsWithLabel rest l) := by
  unfold fieldsWithLabel
  cases h : f.string == some l with
  | true => simp [List.filter_cons, h]
  | false => simp [List.filter_cons, h]

theorem labelGroups_foldl_lookup (fields : List PyField)
    (acc : List (String × List PyField)) (l : String) (hl : (l == "") = false) :
    lookupGroups
        (fields.foldl (fun acc f =>
          match f.string with
          | none => acc
          | some lab => if lab == "" then acc else labelAppend acc lab f) acc)
        l =
      (match lookupGroups acc l with
       | some g => some (g ++ fieldsWithLabel fields l)
       | none =>
         if fieldsWithLabel fields l = [] then none
         else some (fieldsWithLabel fields l)) := by
  induction fields generalizing acc with
  | nil =>
    cases hg : lookupGroups acc l with
    | none => simp [fieldsWithLabel, hg]
    | some g => simp [fieldsWithLabel, hg]
  | cons f rest ih =>
    rw [List.foldl_cons]
    cases hs : f.string with
    | none =>
      rw [fieldsWithLabel_cons, if_neg (by simp [hs])]
      exact ih acc
    | some lab =>
      cases hlab : lab == "" with
      | true =>
        have hlne : (f.string == some l) = false := by
          have : lab = "" := by simpa using hlab
          subst this
          cases hc : f.string == some l with
          | false => rfl
          | true =>
            rw [hs] at hc
            have : l = "" := by simpa using (by simpa using hc : "" = l).symm
            rw [show l = "" from this] at hl
            simp at hl
        rw [fieldsWithLabel_cons, if_neg (by simp [hlne])]
        simpa [hs, hlab] using ih acc
      | false =>
        simp only [hs, hlab, Bool.false_eq_true, if_false]
        cases hle : lab == l with
        | true =>
          have heq : lab = l := by simpa using hle
          subst heq
          rw [fieldsWithLabel_cons, if_pos (by simp [hs])]
          rw [ih (labelAppend acc lab f),
            lookupGroups_labelAppend_same acc lab f]
          cases hg : lookupGroups acc lab with
          | none => simp [hg]
          | some g => simp [hg]
        | false =>
          have hlabne : ¬lab = l := by simpa using hle
          have hne1 : (f.string == some l) = false := by
            rw [hs]
            simpa using hlabne
          have hne2 : (l == lab) = false := by
            simpa using fun hba : l = lab => hlabne hba.symm
          rw [fieldsWithLabel_cons, if_neg (by simp [hne1])]
          rw [ih (labelAppend acc lab f),
            lookupGroups_labelAppend_ne acc lab l f hne2]

theorem mem_keys_labelAppend (acc : List (String × List PyField))
    (l x : String) (f : PyField)
    (h : x ∈ (labelAppend acc l f).map (fun p => p.1)) :
    x ∈ acc.map (fun p => p.1) ∨ x = l := by
  induction acc with
  | nil =>
    simp only [labelAppend, List.map_cons, List.map_nil] at h
    exact Or.inr (by simpa using h)
  | cons p rest ih =>
    unfold labelAppend at h
    cases hpk : p.1 == l with
    | true =>
      rw [hpk, if_pos rfl] at h
      simp only [List.map_cons] at h
      rcases List.mem_cons.mp h with h' | h'
      · exact Or.inl (by simp [h'])
      · exact Or.inl (by simp [h'])
    | false =>
      rw [hpk, if_neg (by simp)] at h
      simp only [List.map_cons] at h
      rcases List.mem_cons.mp h with h' | h'
      · exact Or.inl (by simp [h'])
      · rcases ih h' with h'' | h''
        · exact Or.inl (by simp [h''])
        · exact Or.inr h''

theorem nodup_keys_labelAppend (acc : List (String × List PyField))
    (l : String) (f : PyField)
    (h : (acc.map (fun p => p.1)).Nodup) :
    ((labelAppend acc l f).map (fun p => p.1)).Nodup := by
  induction acc with
  | nil => simp [labelAppend]
  | cons p rest ih =>
    unfold labelAppend
    rw [List.map_cons, List.nodup_cons] at h
    cases hpk : p.1 == l with
    | true =>
      rw [if_pos rfl]
      rw [List.map_cons, List.nodup_cons]
      exact h
    | false =>
      rw [if_neg (by simp)]
      rw [List.map_cons, List.nodup_cons]
      refine ⟨?_, ih h.2⟩
      intro hmem
      rcases mem_keys_labelAppend rest l p.1 f hmem with h' | h'
      · exact h.1 h'
      · rw [h'] at hpk
        simp at hpk

theorem nodup_keys_labelGroups (fields : List PyField) :
    ((labelGroups fields).map (fun p => p.1)).Nodup := by
  suffices hgen : ∀ (acc : List (String × List PyField)),
      (acc.map (fun p => p.1)).Nodup →
      ((fields.foldl (fun acc f =>
        match f.string with
        | none => acc
        | some lab => if lab == "" then acc else labelAppend acc lab f)
        acc).map (fun p => p.1)).Nodup by
    exact hgen [] (by simp)
  induction fields with
  | nil => intro acc h; exact h
  | cons f rest ih =>
    intro acc h
    rw [List.foldl_cons]
    cases hs : f.string with
    | none => exact ih acc h
    | some lab =>
      cases hlab : lab == "" with
      | true => simpa [hlab] using ih acc h
      | false =>
        simp only [hlab, Bool.false_eq_true, if_false]
        exact ih (labelAppend acc lab f) (nodup_keys_labelAppend acc lab f h)

/-- The three fields of the specified concrete instance: `a` and `b` share
label `"X"`, `c` has label `"Y"`. -/
def exDupFields : List PyField :=
  [⟨"a", some "X", 1⟩, ⟨"b", some "X", 2⟩, ⟨"c", some "Y", 3⟩]

/-- C9.  Grouping one model's fields by non-empty label: the (unique, by
key `Nodup`) group for a label is exactly the in-order list of fields
carrying it, so a group of size ≥ 2 yields one message naming every member
located at the first occurrence, and smaller groups yield none; on the
concrete instance, fields `a`,`b` with label `"X"` and `c` with `"Y"`
produce exactly the one expected message. -/
theorem duplicate_label_rule :
    (∀ (fields : List PyField) (l : String), (l == "") = false →
      lookupGroups (labelGroups fields) l =
        (if fieldsWithLabel fields l = [] then none
         else some (fieldsWithLabel fields l))) ∧
    (∀ fields : List PyField,
      ((labelGroups fields).map (fun p => p.1)).Nodup) ∧
    (∀ (fn : String) (fields : List PyField) (l : String),
      (l == "") = false → 2 ≤ (fieldsWithLabel fields l).length →
      dupLabelMessage fn l (fieldsWithLabel fields l) ∈
        check_duplicate_field_labels fn fields) ∧
    check_duplicate_field_labels "f.py" exDupFields =
      ["f.py:1 Fields (a, b) have the same label: \"X\""] := by
  have hlook : ∀ (fields : List PyField) (l : String), (l == "") = false →
      lookupGroups (labelGroups fields) l =
        (if fieldsWithLabel fields l = [] then none
         else some (fieldsWithLabel fields l)) := by
    intro fields l hl
    have := labelGroups_foldl_lookup fields [] l hl
    simpa [labelGroups, lookupGroups] using this
  refine ⟨hlook, nodup_keys_labelGroups, ?_, by decide⟩
  intro fn fields l hl hlen
  have hne : fieldsWithLabel fields l ≠ [] := by
    intro he
    rw [he] at hlen
    simp at hlen
  have hfound := hlook fields l hl
  rw [if_neg hne] at hfound
  unfold lookupGroups at hfound
  rcases hopt : (labelGroups fields).find? (fun p => p.1 == l) with _ | pr
  · rw [hopt] at hfound
    simp at hfound
  · rw [hopt] at hfound
    have hpr2 : pr.2 = fieldsWithLabel fields l := by simpa using hfound
    have hmem : pr ∈ labelGroups fields := List.mem_of_find?_eq_some hopt
    have hpr1 : pr.1 = l := by
      have := List.find?_some hopt
      simpa using this
    unfold check_duplicate_field_labels
    refine List.mem_filterMap.mpr ⟨pr, hmem, ?_⟩
    rw [if_pos (by rw [hpr2]; exact hlen), hpr1, hpr2]

/-- Witness: the group characterization applied to the concrete fields. -/
theorem duplicate_label_rule_witness :
    dupLabelMessage "f.py" "X" (fieldsWithLabel exDupFields "X") ∈
      check_duplicate_field_labels "f.py" exDupFields :=
  duplicate_label_rule.2.2.1 "f.py" exDupFields "X" (by decide) (by decide)

/-! ## Embedding of `OdooFieldVisitor._extract_field_info`

The AST fragment the extractor inspects: constants, names, attribute
access and calls with positional and keyword arguments. -/

inductive PyConst where
  | cstr : String → PyConst
  | cint : Int → PyConst
  | cbool : Bool → PyConst
  | cnone : PyConst
deriving DecidableEq, Repr

inductive PyExpr where
  | constant : PyConst → PyExpr
  | name : String → PyExpr
  | attr : PyExpr → String → PyExpr
  | call : PyExpr → List PyExpr → List (Option String × PyExpr) → PyExpr

/-- `OdooFieldVisitor.FIELD_TYPES`, verbatim. -/
def FIELD_TYPES : List String :=
  ["Char", "Text", "Html", "Integer", "Float", "Monetary", "Boolean",
   "Date", "Datetime", "Binary", "Selection", "Many2one", "One2many",
   "Many2many", "Reference", "Image", "Json", "Properties",
   "PropertiesDefinition"]

/-- The field dict `_extract_field_info` builds; a `compute` given as a
bare name reference is recorded by its identifier string. -/
structure FieldInfo where
  name : String
  type : String
  lineno : Nat
  string : Option PyConst
  help : Option PyConst
  related : Option PyConst
  compute : Option PyConst
  compute_sudo : Option PyConst
  tracking : Option PyConst
  selection : Option Bool
  comodel_name : Option PyConst
  is_private : Bool
deriving DecidableEq, Repr

/-- `OdooFieldVisitor._get_bool_value`. -/
def get_bool_value (node : PyExpr) (dflt : Option PyConst) : Option PyConst :=
  match node with
  | .constant v => some v
  | _ => dflt

/-- The keyword loop of `_extract_field_info`: each branch requires the
exact keyword name, and the value-capturing branches additionally require
an `ast.Constant` value (so a call-wrapped value falls through
unchanged). -/
def applyKeyword (fi : FieldInfo) (kw : Option String × PyExpr) : FieldInfo :=
  match kw with
  | (some "string", .constant v) => {fi with string := some v}
  | (some "help", .constant v) => {fi with help := some v}
  | (some "related", .constant v) => {fi with related := some v}
  | (some "compute", .constant v) => {fi with compute := some v}
  | (some "compute", .name id) => {fi with compute := some (.cstr id)}
  | (some "compute_sudo", v) => {fi with compute_sudo := get_bool_value v none}
  | (some "tracking", v) =>
    {fi with tracking := get_bool_value v (some (.cbool true))}
  | (some "selection", _) => {fi with selection := some true}
  | (some "comodel_name", .constant v) => {fi with comodel_name := some v}
  | _ => fi

/-- `OdooFieldVisitor._extract_field_info`. -/
def extract_field_info (field_name : String) (value_node : PyExpr)
    (lineno : Nat) : Option FieldInfo :=
  match value_node with
  | .call func args keywords =>
    let field_type : Option String :=
      match func with
      | .attr (.name base) a => if base == "fields" then some a else none
      | .name id => if FIELD_TYPES.contains id then some id else none
      | _ => none
    match field_type with
    | none => none
    | some ft =>
      if !(FIELD_TYPES.contains ft) then none
      else
        let base : FieldInfo :=
          { name := field_name, type := ft, lineno := lineno,
            string := none, help := none, related := none, compute := none,
            compute_sudo := none, tracking := none, selection := none,
            comodel_name := none,
            is_private := field_name.startsWith "_" }
        let withPos : FieldInfo :=
          match args with
          | .constant (.cstr s) :: _ =>
            if ft == "Many2one" || ft == "One2many" || ft == "Many2many" then
              {base with comodel_name := some (.cstr s)}
            else {base with string := some (.cstr s)}
          | _ => base
        some (keywords.foldl applyKeyword withPos)
  | _ => none

/-- A first positional argument wrapped in a one-argument translation
marker, `fields.Char(_("Label"))`-style but with the bare constructor
name. -/
def exWrappedCall : PyExpr :=
  .call (.name "Char") [.call (.name "_") [.constant (.cstr "Label")] []] []

/-- The same declaration with a bare string literal. -/
def exBareCall : PyExpr :=
  .call (.name "Char") [.constant (.cstr "Label")] []

/-- C6 counterexample.  The extractor does not unwrap translation-marker
calls: with `_("Label")` as the first positional argument the captured
label is `None`, and likewise for a wrapped `help=` keyword, so the
extracted fact differs from the bare-literal one. -/
theorem translation_marker_not_unwrapped :
    ((extract_field_info "x" exWrappedCall 1).map (fun fi => fi.string) =
      some none) ∧
    ((extract_field_info "x" exBareCall 1).map (fun fi => fi.string) =
      some (some (.cstr "Label"))) ∧
    extract_field_info "x" exWrappedCall 1 ≠
      extract_field_info "x" exBareCall 1 ∧
    ((extract_field_info "x"
        (.call (.name "Char") []
          [(some "help", .call (.name "_") [.constant (.cstr "H")] [])])
        1).map (fun fi => fi.help) = some none) := by
  decide

/-- C6 (amended).  Label and help text are captured only from bare string
constants: whenever the first positional argument, or the `string=`/`help=`
keyword value, is any call (in particular a one-argument translation
marker), the extracted fact leaves the corresponding attribute unset. -/
theorem field_label_only_bare_constants (fname : String) (ln : Nat)
    (ft : String) (hft : FIELD_TYPES.contains ft = true) (g : PyExpr)
    (cargs : List PyExpr) (ckw : List (Option String × PyExpr)) :
    ((extract_field_info fname (.call (.name ft) [.call g cargs ckw] [])
        ln).map (fun fi => (fi.string, fi.help, fi.comodel_name)) =
      some (none, none, none)) ∧
    ((extract_field_info fname
        (.call (.name ft) []
          [(some "string", PyExpr.call g cargs ckw),
           (some "help", PyExpr.call g cargs ckw)]) ln).map
        (fun fi => (fi.string, fi.help)) = some (none, none)) := by
  have hmem : ft ∈ FIELD_TYPES := by simpa using hft
  constructor
  · unfold extract_field_info
    simp [hft, hmem, applyKeyword]
  · unfold extract_field_info
    simp [hft, hmem, applyKeyword]

/-- Witness: the amended C6 at the `Char` constructor with a concrete
wrapped argument. -/
theorem field_label_only_bare_constants_witness :
    (extract_field_info "x"
        (.call (.name "Char") [.call (.name "_") [.constant (.cstr "L")] []]
          []) 1).map (fun fi => (fi.string, fi.help, fi.comodel_name)) =
      some (none, none, none) :=
  (field_label_only_bare_constants "x" 1 "Char" (by decide) (.name "_")
    [.constant (.cstr "L")] []).1

/-! ## Embedding of the docstring checks

Python string helpers, modelled at character level: `str.strip()`,
`str.lower()`, `str.replace("_", " ")` and `str.rstrip(".")`. -/

def pyStrip (cs : List Char) : List Char :=
  ((cs.dropWhile (fun c => c.isWhitespace)).reverse.dropWhile
    (fun c => c.isWhitespace)).reverse

def pyLower (cs : List Char) : List Char := cs.map Char.toLower

def pyReplaceUnderscore (cs : List Char) : List Char :=
  cs.map (fun c => if c == '_' then ' ' else c)

def pyRstripDots (cs : List Char) : List Char :=
  (cs.reverse.dropWhile (fun c => c == '.')).reverse

/-- A method dict as the visitor builds it and the checks read it. -/
structure PyMethod where
  name : String
  lineno : Nat
  is_private : Bool
  is_magic : Bool
  has_docstring : Bool
  docstring : Option String
deriving DecidableEq, Repr

/-- `check_public_method_missing_docstring` for one model's methods. -/
def check_public_method_missing_docstring (skip_docstring_methods : List String)
    (is_odoo_model : Bool) (filename : String) (methods : List PyMethod) :
    List String :=
  if !is_odoo_model then []
  else
    methods.filterMap (fun m =>
      if m.is_private then none
      else if skip_docstring_methods.contains m.name then none
      else if m.has_docstring then none
      else
        some (filename ++ ":" ++ toString m.lineno ++ " Public method \"" ++
          m.name ++ "\" is missing docstring"))

/-- `check_docstring_quality` for one model's methods, with each message
tagged by its check kind.  Note: this check never consults the
skip-docstring set. -/
def check_docstring_quality (min_docstring_length : Nat)
    (is_odoo_model : Bool) (filename : String) (methods : List PyMethod) :
    List (String × String) :=
  if !is_odoo_model then []
  else
    methods.flatMap (fun m =>
      if m.is_private then []
      else if !m.has_docstring then []
      else
        let doc := (m.docstring.getD "").toList
        let tooShort :=
          if (pyStrip doc).length < min_docstring_length then
            [("python_docstring_too_short",
              filename ++ ":" ++ toString m.lineno ++ " Method \"" ++
                m.name ++ "\" has too short docstring (min " ++
                toString min_docstring_length ++ " chars)")]
          else []
        let method_name_clean :=
          pyLower (pyStrip (pyReplaceUnderscore m.name.toList))
        let docstring_clean := pyRstripDots (pyLower (pyStrip doc))
        let uninformative :=
          if docstring_clean = method_name_clean then
            [("python_docstring_uninformative",
              filename ++ ":" ++ toString m.lineno ++ " Method \"" ++
                m.name ++ "\" has uninformative docstring")]
          else []
        tooShort ++ uninformative)

theorem filterMap_filter_of_none {α β : Type} (f : α → Option β)
    (p : α → Bool) (h : ∀ a, p a = false → f a = none) (l : List α) :
    l.filterMap f = (l.filter p).filterMap f := by
  induction l with
  | nil => rfl
  | cons a rest ih =>
    rw [List.filter_cons]
    cases hp : p a with
    | true =>
      rw [if_pos rfl, List.filterMap_cons, List.filterMap_cons, ih]
    | false =>
      rw [if_neg (by simp), List.filterMap_cons, h a hp, ih]

def skipCreate : List String := ["create"]

def mCreate : PyMethod := ⟨"create", 5, false, false, true, some "Short"⟩

/-- C7 counterexample.  A public method in the configured skip-docstring
set is exempt from the missing-docstring kind, but still receives a
`python_docstring_too_short` diagnostic: the quality check never consults
the skip set. -/
theorem docstring_skip_list_not_honored_by_quality :
    skipCreate.contains "create" = true ∧
    check_public_method_missing_docstring skipCreate true "f.py" [mCreate]
      = [] ∧
    check_docstring_quality 10 true "f.py" [mCreate] =
      [("python_docstring_too_short",
        "f.py:5 Method \"create\" has too short docstring (min 10 chars)")] := by
  decide

/-- C7 (amended).  The skip-docstring set suppresses only the
missing-docstring kind — skip-listed methods contribute nothing to it —
while the too-short and uninformative kinds are produced for public
documented methods regardless of skip membership (witnessed by the
skip-listed `create` still drawing a too-short diagnostic). -/
theorem docstring_skip_list_only_missing_kind :
    (∀ (skip : List String) (odoo : Bool) (fn : String)
        (ms : List PyMethod),
      check_public_method_missing_docstring skip odoo fn ms =
        check_public_method_missing_docstring skip odoo fn
          (ms.filter (fun m => !(skip.contains m.name)))) ∧
    check_docstring_quality 10 true "f.py" [mCreate] =
      [("python_docstring_too_short",
        "f.py:5 Method \"create\" has too short docstring (min 10 chars)")] := by
  constructor
  · intro skip odoo fn ms
    unfold check_public_method_missing_docstring
    cases ho : odoo with
    | false => simp
    | true =>
      simp only [Bool.not_true, Bool.false_eq_true, if_false]
      refine filterMap_filter_of_none _ _ ?_ ms
      intro m hm
      have hc : skip.contains m.name = true := by simpa using hm
      cases hp : m.is_private with
      | true => simp [hp]
      | false =>
        have hmem : m.name ∈ skip := by simpa using hc
        simp [hp, hmem]
  · decide

end SoltPreCommit
